import Mathlib

/-!
Verification of the nlobby-mcp content-extraction pipeline.

This file is a shallow embedding, in Lean, of the parts of the nlobby-mcp
source that the specification's testable properties talk about: the course
arithmetic (`calculateProgressPercentage`, `calculateAverageScore`), the
calendar normalizer (`convertGoogleCalendarEventsToScheduleItems`,
`createDateRange`), the session store (`parseCookies`, `getCookieHeader`,
`setCookies`), the endpoint-discovery sweep (`tryMultipleNewsEndpoints`
composed with the tRPC client's response interceptor) and the news
extraction engine (`parseNewsFromHtml`, `parseNewsDetailFromHtml`,
`transformNewsToAnnouncements`, `parseAnnouncementsWithCheerio`).

JavaScript's untyped values are modelled by an inductive `Json` type; the
current wall-clock instant (`new Date()` with no argument) is passed as an
explicit parameter wherever the source reads it, so every embedded function
is a pure function of its inputs.
-/

namespace NLobby

/-- Untyped JSON values, as produced by JavaScript's `JSON.parse`.  Numbers
are modelled as integers (every numeric literal this code base manipulates
is integral); object entries keep insertion order, matching the order
`Object.entries` iterates in. -/
inductive Json where
  | null : Json
  | bool (b : Bool) : Json
  | num (n : Int) : Json
  | str (s : String) : Json
  | arr (elems : List Json) : Json
  | obj (entries : List (String × Json)) : Json

mutual

def Json.beq : Json → Json → Bool
  | .null, .null => true
  | .bool a, .bool b => a == b
  | .num a, .num b => a == b
  | .str a, .str b => a == b
  | .arr a, .arr b => Json.beqList a b
  | .obj a, .obj b => Json.beqEntries a b
  | _, _ => false

def Json.beqList : List Json → List Json → Bool
  | [], [] => true
  | a :: as, b :: bs => Json.beq a b && Json.beqList as bs
  | _, _ => false

def Json.beqEntries : List (String × Json) → List (String × Json) → Bool
  | [], [] => true
  | (k, v) :: as, (k', v') :: bs => k == k' && Json.beq v v' && Json.beqEntries as bs
  | _, _ => false

end

instance : BEq Json := ⟨Json.beq⟩

mutual

theorem Json.beq_iff : ∀ a b : Json, Json.beq a b = true ↔ a = b
  | .null, .null => by simp [Json.beq]
  | .bool a, .bool b => by simp [Json.beq]
  | .num a, .num b => by simp [Json.beq]
  | .str a, .str b => by simp [Json.beq]
  | .arr a, .arr b => by
      simp only [Json.beq, Json.beqList_iff a b, Json.arr.injEq]
  | .obj a, .obj b => by
      simp only [Json.beq, Json.beqEntries_iff a b, Json.obj.injEq]
  | .null, .bool _ | .null, .num _ | .null, .str _ | .null, .arr _ | .null, .obj _
  | .bool _, .null | .bool _, .num _ | .bool _, .str _ | .bool _, .arr _ | .bool _, .obj _
  | .num _, .null | .num _, .bool _ | .num _, .str _ | .num _, .arr _ | .num _, .obj _
  | .str _, .null | .str _, .bool _ | .str _, .num _ | .str _, .arr _ | .str _, .obj _
  | .arr _, .null | .arr _, .bool _ | .arr _, .num _ | .arr _, .str _ | .arr _, .obj _
  | .obj _, .null | .obj _, .bool _ | .obj _, .num _ | .obj _, .str _ | .obj _, .arr _ => by
      simp [Json.beq]

theorem Json.beqList_iff : ∀ a b : List Json, Json.beqList a b = true ↔ a = b
  | [], [] => by simp [Json.beqList]
  | a :: as, b :: bs => by
      simp only [Json.beqList, Bool.and_eq_true, Json.beq_iff a b,
        Json.beqList_iff as bs, List.cons.injEq]
  | [], _ :: _ => by simp [Json.beqList]
  | _ :: _, [] => by simp [Json.beqList]

theorem Json.beqEntries_iff :
    ∀ a b : List (String × Json), Json.beqEntries a b = true ↔ a = b
  | [], [] => by simp [Json.beqEntries]
  | (k, v) :: as, (k', v') :: bs => by
      simp only [Json.beqEntries, Bool.and_eq_true, Json.beq_iff v v',
        Json.beqEntries_iff as bs, List.cons.injEq, beq_iff_eq, Prod.mk.injEq,
        and_assoc]
  | [], _ :: _ => by simp [Json.beqEntries]
  | _ :: _, [] => by simp [Json.beqEntries]

end

instance : DecidableEq Json := fun a b =>
  decidable_of_iff (Json.beq a b = true) (Json.beq_iff a b)

/-- JavaScript truthiness of a JSON value (`NaN` does not arise: numbers are
integral). -/
def Json.truthy : Json → Bool
  | .null => false
  | .bool b => b
  | .num n => n != 0
  | .str s => s != ""
  | .arr _ => true
  | .obj _ => true

/-- Property access `value.key` on a parsed JSON value: defined (`some`) only
on objects that carry the key, `undefined` (`none`) everywhere else, exactly
as JavaScript property access behaves on `JSON.parse` output. -/
def Json.get? : Json → String → Option Json
  | .obj kvs, k => kvs.lookup k
  | _, _ => none

/-- `value && typeof value === "object"`: true for arrays and objects, false
for `null` (falsy) and all primitives. -/
def Json.isTruthyObject : Json → Bool
  | .arr _ => true
  | .obj _ => true
  | _ => false

/-- Truthiness of an optional property (`undefined` is falsy). -/
def jsTruthy? : Option Json → Bool
  | none => false
  | some v => v.truthy

mutual

/-- JavaScript `String(v)` / `v.toString()` on a JSON value: strings are kept,
numbers and booleans rendered, arrays joined with `,` (with `null` elements
rendered empty, as `Array.prototype.join` does), objects rendered
`[object Object]`. -/
def Json.jsToString : Json → String
  | .null => "null"
  | .bool b => if b then "true" else "false"
  | .num n => toString n
  | .str s => s
  | .arr l => String.intercalate "," (Json.jsToStringJoin l)
  | .obj _ => "[object Object]"

def Json.jsToStringJoin : List Json → List String
  | [] => []
  | .null :: rest => "" :: Json.jsToStringJoin rest
  | v :: rest => Json.jsToString v :: Json.jsToStringJoin rest

end

/-- `Math.round` on an exact rational: JavaScript rounds half-way cases
towards positive infinity (`Math.round(x) = ⌊x + 0.5⌋`). -/
def jsRound (q : ℚ) : Int := ⌊q + 1 / 2⌋

/-! ## Course arithmetic (`transformEducationDataToCourses` helpers) -/

/-- The `report` counters of a course: `count` completed reports out of
`allCount`. -/
structure CourseReport where
  count : Int
  allCount : Int

/-- One report-detail entry: an optional score (`null` when unscored) and a
completion percentage. -/
structure CourseReportDetail where
  score : Option Int
  progress : Int

/-- `calculateProgressPercentage` from the source: `0` when `allCount` is
zero, otherwise `Math.round((count / allCount) * 100)`. -/
def calculateProgressPercentage (report : CourseReport) : Int :=
  if report.allCount = 0 then 0
  else jsRound ((report.count : ℚ) / (report.allCount : ℚ) * 100)

/-- `calculateAverageScore` from the source: filter the entries whose score
is non-null and whose progress is `100`, return `null` when none qualify,
otherwise `Math.round` of their mean (the accumulator `sum + (score || 0)`
is the source's `reduce`). -/
def calculateAverageScore (reportDetails : List CourseReportDetail) : Option Int :=
  let scoresWithValues :=
    reportDetails.filter (fun d => d.score.isSome && (d.progress == 100))
  if scoresWithValues.length = 0 then none
  else
    let totalScore : Int := scoresWithValues.foldl (fun sum d => sum + d.score.getD 0) 0
    some (jsRound ((totalScore : ℚ) / (scoresWithValues.length : ℚ)))

/-- The spec's description of the average score, written independently of the
implementation: the rounded mean of the scores of exactly those entries that
are scored and 100%-complete, absent when no entry qualifies. -/
def specAverageScore (reportDetails : List CourseReportDetail) : Option Int :=
  let qualifyingScores : List Int :=
    (reportDetails.filter (fun d => d.score.isSome && (d.progress == 100))).filterMap
      (fun d => d.score)
  if qualifyingScores = [] then none
  else some (jsRound ((qualifyingScores.sum : ℚ) / (qualifyingScores.length : ℚ)))

theorem foldl_add_getD (l : List CourseReportDetail) (init : Int) :
    l.foldl (fun sum d => sum + d.score.getD 0) init
      = init + (l.map (fun d => d.score.getD 0)).sum := by
  induction l generalizing init with
  | nil => simp
  | cons d rest ih => simp [List.foldl_cons, ih, add_assoc]

theorem map_getD_eq_filterMap (l : List CourseReportDetail)
    (h : ∀ d ∈ l, d.score.isSome) :
    l.map (fun d => d.score.getD 0) = l.filterMap (fun d => d.score) := by
  induction l with
  | nil => simp
  | cons d rest ih =>
      have hd := h d (List.mem_cons_self d rest)
      cases hs : d.score with
      | none => rw [hs] at hd; simp at hd
      | some v =>
          simp only [List.map_cons, List.filterMap_cons, hs, Option.getD_some]
          rw [ih (fun x hx => h x (List.mem_cons_of_mem d hx))]

/-- Claim C6: for every list of report-detail entries the computed average
score equals the rounded mean of the scores of exactly those entries whose
score is non-null and whose progress equals 100, and is `null` when no entry
qualifies; in particular `[{score:80,progress:100},{score:null,progress:100},
{score:60,progress:50}]` yields `averageScore = 80`. -/
theorem averageScore_spec :
    (∀ reportDetails : List CourseReportDetail,
      calculateAverageScore reportDetails = specAverageScore reportDetails) ∧
    calculateAverageScore [⟨some 80, 100⟩, ⟨none, 100⟩, ⟨some 60, 50⟩] = some 80 := by
  constructor
  · intro reportDetails
    unfold calculateAverageScore specAverageScore
    set sw := reportDetails.filter (fun d => d.score.isSome && (d.progress == 100))
      with hsw
    have hall : ∀ d ∈ sw, d.score.isSome := by
      intro d hd
      have := List.of_mem_filter hd
      exact (Bool.and_eq_true _ _ |>.mp this).1
    have hmap : sw.map (fun d => d.score.getD 0) = sw.filterMap (fun d => d.score) :=
      map_getD_eq_filterMap sw hall
    have hlen : (sw.filterMap (fun d => d.score)).length = sw.length := by
      rw [← hmap, List.length_map]
    have hsum : sw.foldl (fun sum d => sum + d.score.getD 0) 0
        = (sw.filterMap (fun d => d.score)).sum := by
      rw [foldl_add_getD, ← hmap]; ring
    by_cases h0 : sw.length = 0
    · have hnil : sw.filterMap (fun d => d.score) = [] :=
        List.length_eq_zero.mp (by rw [hlen]; exact h0)
      simp [h0, hnil]
    · have hne : ¬ sw.filterMap (fun d => d.score) = [] := by
        intro hnil
        rw [hnil] at hlen
        exact h0 (by simpa using hlen.symm)
      simp only [h0, if_false, hne, if_false, hsum, hlen]
  · have : calculateAverageScore [⟨some 80, 100⟩, ⟨none, 100⟩, ⟨some 60, 50⟩]
        = some (jsRound ((80 : ℚ) / 1)) := by
      simp [calculateAverageScore, List.filter, List.foldl]
    rw [this]
    norm_num [jsRound]

/-- The spec's description of the progress percentage, written independently
of the implementation: `round(100 × count / allCount)`, and `0` (not an
error) when `allCount` is zero. -/
def specProgressPercentage (report : CourseReport) : Int :=
  if report.allCount = 0 then 0
  else jsRound (100 * (report.count : ℚ) / (report.allCount : ℚ))

/-- Claim C7: for every course report the computed progress percentage equals
`round(100 * count / allCount)` when `allCount` is nonzero and equals `0`
when `allCount` is zero; in particular `{count:3, allCount:4}` yields `75`
and `{count:0, allCount:0}` yields `0`. -/
theorem progressPercentage_spec :
    (∀ report : CourseReport,
      calculateProgressPercentage report = specProgressPercentage report) ∧
    calculateProgressPercentage ⟨3, 4⟩ = 75 ∧
    calculateProgressPercentage ⟨0, 0⟩ = 0 := by
  refine ⟨fun report => ?_, ?_, ?_⟩
  · unfold calculateProgressPercentage specProgressPercentage
    by_cases h : report.allCount = 0
    · simp [h]
    · simp only [h, if_false]
      ring_nf
  · have : calculateProgressPercentage ⟨3, 4⟩ = jsRound ((3 : ℚ) / 4 * 100) := by
      simp [calculateProgressPercentage]
    rw [this]; norm_num [jsRound]
  · simp [calculateProgressPercentage]

/-! ## Date-range validation (`createDateRange`) -/

/-- A JavaScript `Date` value reduced to what `createDateRange` observes: its
epoch-millisecond timestamp, with `none` standing for an Invalid Date (a
`NaN` timestamp, which is what `new Date(s)` yields on an unparsable string
and what the source's `isNaN(d.getTime())` guard detects). -/
abbrev JSDate := Option Int

/-- `createDateRange` from the source: reject when either date is invalid,
compute `diffDays = (to - from) / 86400000` and reject when `diffDays < 1`,
otherwise return `{from, to}` unchanged.  The millisecond timestamps are
integral, so the float comparison `diffDays < 1` is exact. -/
def createDateRange (fromDate toDate : JSDate) : Except String (JSDate × JSDate) :=
  match fromDate, toDate with
  | some f, some t =>
      let diffTime := t - f
      if (diffTime : ℚ) / (1000 * 60 * 60 * 24) < 1 then
        .error "To date must be at least 1 day after from date. For single day queries, use period=today or single from_date parameter."
      else
        .ok (some f, some t)
  | _, _ => .error "Invalid date format provided"

/-- Claim C8: `createDateRange(from, to)` throws (performing no network call:
the embedded function is pure and the source throws before any request)
exactly when either date is unparsable or `to` precedes `from`, equals it, or
exceeds it by less than 24 hours; for every pair of parsable dates at least
one day apart it returns the range `{from, to}` unchanged. -/
theorem createDateRange_spec :
    (∀ fromDate toDate : JSDate,
      (∃ msg, createDateRange fromDate toDate = .error msg) ↔
        (fromDate = none ∨ toDate = none ∨
          ∃ f t : Int, fromDate = some f ∧ toDate = some t ∧
            t - f < 1000 * 60 * 60 * 24)) ∧
    (∀ f t : Int, 1000 * 60 * 60 * 24 ≤ t - f →
      createDateRange (some f) (some t) = .ok (some f, some t)) := by
  have key : ∀ f t : Int,
      (((t - f : Int) : ℚ) / (1000 * 60 * 60 * 24) < 1 ↔ t - f < 1000 * 60 * 60 * 24) := by
    intro f t
    rw [div_lt_one (by norm_num)]
    constructor
    · intro h
      exact_mod_cast h
    · intro h
      exact_mod_cast h
  constructor
  · intro fromDate toDate
    match fromDate, toDate with
    | none, _ =>
        simp [createDateRange]
    | some f, none =>
        simp [createDateRange]
    | some f, some t =>
        simp only [createDateRange]
        by_cases h : ((t - f : Int) : ℚ) / (1000 * 60 * 60 * 24) < 1
        · simp only [h, if_true]
          constructor
          · intro _
            exact Or.inr (Or.inr ⟨f, t, rfl, rfl, (key f t).mp h⟩)
          · intro _
            exact ⟨_, rfl⟩
        · simp only [h, if_false]
          constructor
          · rintro ⟨msg, hmsg⟩
            cases hmsg
          · rintro (hf | ht | ⟨f', t', hf', ht', hlt⟩)
            · cases hf
            · cases ht
            · cases hf'; cases ht'
              exact absurd ((key f t).mpr hlt) h
  · intro f t h
    have hnl : ¬ ((t - f : Int) : ℚ) / (1000 * 60 * 60 * 24) < 1 := by
      intro hc
      exact absurd ((key f t).mp hc) (not_lt.mpr h)
    simp only [createDateRange]
    rw [if_neg hnl]

/-- Witness for claim C8: the dates `0` and `86400000` (exactly one day
apart) are accepted and returned unchanged. -/
theorem createDateRange_spec_witness :
    createDateRange (some 0) (some 86400000) = .ok (some 0, some 86400000) :=
  createDateRange_spec.2 0 86400000 (by decide)

/-! ## Endpoint-discovery sweep (`tryMultipleNewsEndpoints` composed with the
tRPC client's interceptors) -/

/-- Outcome of one HTTP request made by the tRPC client: a 2xx response with
the tRPC envelope (its `result` plus an optional in-band `error`), a non-2xx
response carrying an HTTP status, or no response at all. -/
inductive HttpOutcome where
  | ok (result : Json) (inBandError : Option (Int × String))
  | httpError (status : Nat)
  | networkError (code : String)

/-- An error as observed by a caller of `TRPCClient.call`: either a plain
`Error` (no `response` property — this is what the response interceptor's
`throw new Error(...)` and the in-band-error branch produce), or an axios
error still carrying `response.status`, or a network failure. -/
inductive CallError where
  | plainError (msg : String)
  | responseError (status : Nat)
  | networkError (code : String)

/-- One HTTP attempt as seen through the tRPC client's response interceptor
(`setupInterceptors` in `trpc-client.ts`) followed by `call`'s in-band error
check: HTTP 401, 403 and 404 are replaced by plain `Error`s (losing the
`response` property), other failing statuses are passed through unchanged,
and a 2xx envelope with an in-band `error` is turned into a plain
`tRPC Error [...]` as well. -/
def interceptTRPCResponse : HttpOutcome → Except CallError Json
  | .ok result inBandError =>
      match inBandError with
      | some (code, msg) =>
          .error (.plainError ("tRPC Error [" ++ toString code ++ "]: " ++ msg))
      | none => .ok result
  | .httpError 401 =>
      .error (.plainError "Authentication expired. Please re-authenticate with NextAuth cookies.")
  | .httpError 403 =>
      .error (.plainError "Access forbidden. Check your permissions or re-authenticate.")
  | .httpError 404 =>
      .error (.plainError "tRPC endpoint not found. The API may have changed.")
  | .httpError status => .error (.responseError status)
  | .networkError code => .error (.networkError code)

/-- `TRPCClient.call`: try the GET attempt; on any failure retry as POST.
Each candidate of the sweep is therefore characterised by the raw outcomes
of its GET and its POST attempt. -/
def TRPCClient.call (getOutcome postOutcome : HttpOutcome) : Except CallError Json :=
  match interceptTRPCResponse getOutcome with
  | .ok r => .ok r
  | .error _ => interceptTRPCResponse postOutcome

/-- The object branch of the sweep: the first property whose value is a
non-empty array. -/
def findNonEmptyArrayProp : List (String × Json) → Option (List Json)
  | [] => none
  | (_, .arr (x :: xs)) :: _ => some (x :: xs)
  | _ :: rest => findNonEmptyArrayProp rest

/-- `tryMultipleNewsEndpoints` from the source, as a function of the ordered
candidate outcomes.  Returns the recovered array (or `none` when the loop
finishes or breaks) together with the number of candidates that were
attempted.  A successful non-empty array short-circuits; an empty array, an
object without a non-empty array property, any other 2xx payload, and any
error whose `response.status` is not 401 all `continue`; an error that still
carries `response.status === 401` executes `break` (the function then falls
through to its final `return null`). -/
def tryMultipleNewsEndpoints :
    List (HttpOutcome × HttpOutcome) → Option (List Json) × Nat
  | [] => (none, 0)
  | (g, p) :: rest =>
      match TRPCClient.call g p with
      | .ok (.arr (x :: xs)) => (some (x :: xs), 1)
      | .ok (.obj kvs) =>
          match findNonEmptyArrayProp kvs with
          | some l => (some l, 1)
          | none =>
              match tryMultipleNewsEndpoints rest with
              | (r, n) => (r, n + 1)
      | .ok _ =>
          match tryMultipleNewsEndpoints rest with
          | (r, n) => (r, n + 1)
      | .error (.responseError 401) => (none, 1)
      | .error _ =>
          match tryMultipleNewsEndpoints rest with
          | (r, n) => (r, n + 1)

/-- The failing input for claim C2: the first candidate's GET and POST
attempts both fail with HTTP 401; the second candidate succeeds with a
one-item array. -/
def c2FailingCandidates : List (HttpOutcome × HttpOutcome) :=
  [ (.httpError 401, .httpError 401),
    (.ok (.arr [.obj [("id", .str "1"), ("title", .str "A")]]) none,
     .ok (.arr []) none) ]

/-- Claim C2 (code bug): the claim — and the sweep's own `break` comment
"Stop trying if auth fails" — say an HTTP 401 stops the sweep immediately,
but the tRPC client's response interceptor has already replaced the 401
axios error with a plain `Error` carrying no `response` property, so the
sweep's `status === 401` test never sees the 401 and the loop continues:
with a 401 first candidate, the second candidate is still attempted (two
candidates attempted, and the second one's data is returned). -/
theorem sweep401_not_fatal :
    tryMultipleNewsEndpoints c2FailingCandidates
      = (some [.obj [("id", .str "1"), ("title", .str "A")]], 2) ∧
    TRPCClient.call (.httpError 401) (.httpError 401)
      = .error (.plainError
          "Authentication expired. Please re-authenticate with NextAuth cookies.") := by
  constructor <;> rfl

/-! ## Percent-encoding (`encodeURIComponent` / `decodeURIComponent`)

The session store's `getCookieHeader` calls JavaScript's `encodeURIComponent`
on each token value and `parseCookies` calls `decodeURIComponent`; both
builtins are embedded here.  `encodeURIComponent` leaves the unreserved
characters `A–Z a–z 0–9 - _ . ! ~ * ' ( )` alone and replaces every other
character by the uppercase-hex percent-encoding of its UTF-8 bytes;
`decodeURIComponent` reverses this, failing (a `URIError`, modelled as
`none`) on malformed escapes. -/

/-- The characters `encodeURIComponent` leaves unescaped. -/
def isUriUnreserved (c : Char) : Bool :=
  ('A' ≤ c && c ≤ 'Z') || ('a' ≤ c && c ≤ 'z') || ('0' ≤ c && c ≤ '9') ||
    c == '-' || c == '_' || c == '.' || c == '!' || c == '~' || c == '*' ||
    c == '\'' || c == '(' || c == ')'

/-- The UTF-8 bytes of a character (1–4 bytes depending on the scalar
value). -/
def utf8Bytes (c : Char) : List Nat :=
  let n := c.toNat
  if n < 128 then [n]
  else if n < 2048 then [192 + n / 64, 128 + n % 64]
  else if n < 65536 then [224 + n / 4096, 128 + n / 64 % 64, 128 + n % 64]
  else [240 + n / 262144, 128 + n / 4096 % 64, 128 + n / 64 % 64, 128 + n % 64]

/-- Uppercase hexadecimal digit, as `encodeURIComponent` produces. -/
def hexDigitChar (n : Nat) : Char :=
  if n < 10 then Char.ofNat (48 + n) else Char.ofNat (55 + n)

/-- `%XY` for one byte. -/
def percentEncodeByte (b : Nat) : List Char :=
  ['%', hexDigitChar (b / 16), hexDigitChar (b % 16)]

/-- `encodeURIComponent` on one character. -/
def encodeURIComponentChar (c : Char) : List Char :=
  if isUriUnreserved c then [c] else (utf8Bytes c).flatMap percentEncodeByte

/-- JavaScript `encodeURIComponent`. -/
def encodeURIComponent (s : String) : String :=
  ⟨s.data.flatMap encodeURIComponentChar⟩

/-- Value of one hexadecimal digit (either case, as `decodeURIComponent`
accepts). -/
def hexDigitVal? (c : Char) : Option Nat :=
  if '0' ≤ c && c ≤ '9' then some (c.toNat - 48)
  else if 'A' ≤ c && c ≤ 'F' then some (c.toNat - 55)
  else if 'a' ≤ c && c ≤ 'f' then some (c.toNat - 87)
  else none

/-- One lexical unit of `decodeURIComponent`'s scan: a character that passes
through unescaped, or one `%XY` escape read as a byte. -/
inductive UriTok where
  | lit (c : Char) : UriTok
  | byte (b : Nat) : UriTok
deriving DecidableEq

/-- First pass of `decodeURIComponent`: read every `%XY` escape as a byte
(failing on an incomplete or non-hexadecimal escape) and pass every other
character through. -/
def uriTokenize : List Char → Option (List UriTok)
  | [] => some []
  | c :: rest =>
      if c = '%' then
        match rest with
        | h :: l :: rest2 =>
            match hexDigitVal? h, hexDigitVal? l with
            | some hv, some lv => (uriTokenize rest2).map (.byte (hv * 16 + lv) :: ·)
            | _, _ => none
        | _ => none
      else (uriTokenize rest).map (.lit c :: ·)

/-- Validity of a completed UTF-8 scalar value, by the byte length of its
encoding: strict decoding rejects overlong encodings (the lower bounds),
surrogate code points and values beyond U+10FFFF, exactly as ECMAScript's
`Decode` does. -/
def uriScalarOk (total v : Nat) : Bool :=
  match total with
  | 2 => decide (128 ≤ v)
  | 3 => decide (2048 ≤ v ∧ ¬ (55296 ≤ v ∧ v ≤ 57343))
  | _ => decide (65536 ≤ v ∧ v ≤ 1114111)

/-- Second pass of `decodeURIComponent`, as a one-token-at-a-time UTF-8
assembler.  The state `some (v, k, total)` means a multi-byte sequence of
`total` bytes is in progress with accumulated value `v` and `k` continuation
bytes still expected; `none` means no sequence is pending.  Stray or missing
continuation bytes, unescaped characters inside a sequence, and invalid
completed scalars all raise `URIError` (`none`). -/
def uriAssembleSt : Option (Nat × Nat × Nat) → List UriTok → Option (List Char)
  | none, [] => some []
  | some _, [] => none
  | none, .lit c :: rest => (uriAssembleSt none rest).map (c :: ·)
  | some _, .lit _ :: _ => none
  | none, .byte b :: rest =>
      if b < 128 then (uriAssembleSt none rest).map (Char.ofNat b :: ·)
      else if b < 192 then none
      else if b < 224 then uriAssembleSt (some (b - 192, 1, 2)) rest
      else if b < 240 then uriAssembleSt (some (b - 224, 2, 3)) rest
      else if b < 248 then uriAssembleSt (some (b - 240, 3, 4)) rest
      else none
  | some (v, k, total), .byte b :: rest =>
      if 128 ≤ b ∧ b < 192 then
        if k = 1 then
          if uriScalarOk total (v * 64 + (b - 128)) then
            (uriAssembleSt none rest).map (Char.ofNat (v * 64 + (b - 128)) :: ·)
          else none
        else uriAssembleSt (some (v * 64 + (b - 128), k - 1, total)) rest
      else none

/-- The byte-assembly pass started in the empty state. -/
def uriAssemble (toks : List UriTok) : Option (List Char) :=
  uriAssembleSt none toks

/-- JavaScript `decodeURIComponent`; `none` models a thrown `URIError`. -/
def decodeURIComponent (s : String) : Option String :=
  ((uriTokenize s.data).bind uriAssemble).map fun l => ⟨l⟩

theorem hexVal_hexChar : ∀ b : Nat, b < 16 → hexDigitVal? (hexDigitChar b) = some b := by
  decide

/-- The token stream `encodeURIComponent` produces for one character. -/
def uriTokensOfChar (c : Char) : List UriTok :=
  if isUriUnreserved c then [.lit c] else (utf8Bytes c).map .byte

theorem uriTokenize_pe (b : Nat) (hb : b < 256) (rest : List Char) :
    uriTokenize (percentEncodeByte b ++ rest)
      = (uriTokenize rest).map (.byte b :: ·) := by
  have h0 : hexDigitVal? (hexDigitChar (b / 16)) = some (b / 16) :=
    hexVal_hexChar _ (by omega)
  have h1 : hexDigitVal? (hexDigitChar (b % 16)) = some (b % 16) :=
    hexVal_hexChar _ (by omega)
  simp only [percentEncodeByte, List.cons_append, List.nil_append]
  conv_lhs => rw [uriTokenize.eq_def]
  simp only [if_pos rfl, if_true, h0, h1, Nat.div_add_mod']

theorem uriTokenize_bytes (bs : List Nat) (hbs : ∀ b ∈ bs, b < 256)
    (rest : List Char) :
    uriTokenize (bs.flatMap percentEncodeByte ++ rest)
      = (uriTokenize rest).map (bs.map .byte ++ ·) := by
  induction bs with
  | nil =>
      simp only [List.flatMap_nil, List.nil_append, List.map_nil]
      cases uriTokenize rest <;> rfl
  | cons b bs ih =>
      rw [List.flatMap_cons, List.append_assoc,
        uriTokenize_pe b (hbs b (List.mem_cons_self b bs)),
        ih (fun x hx => hbs x (List.mem_cons_of_mem b hx))]
      cases uriTokenize rest <;> rfl

theorem char_valid_nat (c : Char) :
    c.toNat < 55296 ∨ (57343 < c.toNat ∧ c.toNat < 1114112) := by
  have h := c.valid
  unfold UInt32.isValidChar Nat.isValidChar at h
  exact h

theorem utf8Bytes_lt (c : Char) : ∀ b ∈ utf8Bytes c, b < 256 := by
  intro b hb
  have hvalid := char_valid_nat c
  simp only [utf8Bytes] at hb
  split_ifs at hb <;> simp only [List.mem_cons, List.mem_singleton,
    List.not_mem_nil, or_false] at hb <;> omega

theorem uriTokenize_encodeChar (c : Char) (rest : List Char) :
    uriTokenize (encodeURIComponentChar c ++ rest)
      = (uriTokenize rest).map (uriTokensOfChar c ++ ·) := by
  by_cases hu : isUriUnreserved c
  · have hne : c ≠ '%' := by
      intro h
      rw [h] at hu
      exact absurd hu (by decide)
    rw [encodeURIComponentChar, if_pos hu, List.singleton_append,
      uriTokensOfChar, if_pos hu]
    conv_lhs => rw [uriTokenize.eq_def]
    simp only [if_neg hne]
    cases uriTokenize rest <;> rfl
  · rw [encodeURIComponentChar, if_neg hu, uriTokensOfChar, if_neg hu]
    exact uriTokenize_bytes _ (utf8Bytes_lt c) rest

theorem uriAssembleSt_lit (c : Char) (toks : List UriTok) :
    uriAssembleSt none (.lit c :: toks)
      = (uriAssembleSt none toks).map (c :: ·) := by
  simp only [uriAssembleSt]

theorem uriAssembleSt_ascii (b : Nat) (hb : b < 128) (toks : List UriTok) :
    uriAssembleSt none (.byte b :: toks)
      = (uriAssembleSt none toks).map (Char.ofNat b :: ·) := by
  simp only [uriAssembleSt]
  rw [if_pos hb]

theorem uriAssembleSt_start2 (b : Nat) (hb : 192 ≤ b) (hb' : b < 224)
    (toks : List UriTok) :
    uriAssembleSt none (.byte b :: toks)
      = uriAssembleSt (some (b - 192, 1, 2)) toks := by
  simp only [uriAssembleSt]
  rw [if_neg (by omega), if_neg (by omega), if_pos hb']

theorem uriAssembleSt_start3 (b : Nat) (hb : 224 ≤ b) (hb' : b < 240)
    (toks : List UriTok) :
    uriAssembleSt none (.byte b :: toks)
      = uriAssembleSt (some (b - 224, 2, 3)) toks := by
  simp only [uriAssembleSt]
  rw [if_neg (by omega), if_neg (by omega), if_neg (by omega), if_pos hb']

theorem uriAssembleSt_start4 (b : Nat) (hb : 240 ≤ b) (hb' : b < 248)
    (toks : List UriTok) :
    uriAssembleSt none (.byte b :: toks)
      = uriAssembleSt (some (b - 240, 3, 4)) toks := by
  simp only [uriAssembleSt]
  rw [if_neg (by omega), if_neg (by omega), if_neg (by omega), if_neg (by omega),
    if_pos hb']

theorem uriAssembleSt_contStep (v k total b : Nat) (hb : 128 ≤ b) (hb' : b < 192)
    (toks : List UriTok) :
    uriAssembleSt (some (v, k + 2, total)) (.byte b :: toks)
      = uriAssembleSt (some (v * 64 + (b - 128), k + 1, total)) toks := by
  simp only [uriAssembleSt]
  rw [if_pos ⟨hb, hb'⟩, if_neg (by omega)]
  norm_num

theorem uriAssembleSt_contLast (v total b : Nat) (hb : 128 ≤ b) (hb' : b < 192)
    (hok : uriScalarOk total (v * 64 + (b - 128)) = true) (toks : List UriTok) :
    uriAssembleSt (some (v, 1, total)) (.byte b :: toks)
      = (uriAssembleSt none toks).map (Char.ofNat (v * 64 + (b - 128)) :: ·) := by
  simp only [uriAssembleSt]
  rw [if_pos ⟨hb, hb'⟩, if_pos (trivial : True), if_pos hok]

theorem uriAssemble_tokensOfChar (c : Char) (toks : List UriTok) :
    uriAssemble (uriTokensOfChar c ++ toks) = (uriAssemble toks).map (c :: ·) := by
  unfold uriAssemble
  by_cases hu : isUriUnreserved c
  · rw [uriTokensOfChar, if_pos hu, List.singleton_append, uriAssembleSt_lit]
  · rw [uriTokensOfChar, if_neg hu]
    have hvalid := char_valid_nat c
    by_cases h1 : c.toNat < 128
    · have hb : utf8Bytes c = [c.toNat] := by
        simp only [utf8Bytes]
        rw [if_pos h1]
      rw [hb]
      simp only [List.map_cons, List.map_nil, List.cons_append, List.nil_append]
      rw [uriAssembleSt_ascii c.toNat h1, Char.ofNat_toNat]
    · by_cases h2 : c.toNat < 2048
      · have hb : utf8Bytes c = [192 + c.toNat / 64, 128 + c.toNat % 64] := by
          simp only [utf8Bytes]
          rw [if_neg h1, if_pos h2]
        rw [hb]
        simp only [List.map_cons, List.map_nil, List.cons_append, List.nil_append]
        have hn : (192 + c.toNat / 64 - 192) * 64 + (128 + c.toNat % 64 - 128)
            = c.toNat := by omega
        rw [uriAssembleSt_start2 _ (by omega) (by omega),
          uriAssembleSt_contLast _ _ _ (by omega) (by omega)
            (by rw [hn]; simp only [uriScalarOk]; rw [decide_eq_true_eq]; omega),
          hn, Char.ofNat_toNat]
      · by_cases h3 : c.toNat < 65536
        · have hb : utf8Bytes c
              = [224 + c.toNat / 4096, 128 + c.toNat / 64 % 64, 128 + c.toNat % 64] := by
            simp only [utf8Bytes]
            rw [if_neg h1, if_neg h2, if_pos h3]
          rw [hb]
          simp only [List.map_cons, List.map_nil, List.cons_append, List.nil_append]
          have hn : ((224 + c.toNat / 4096 - 224) * 64 + (128 + c.toNat / 64 % 64 - 128))
                * 64 + (128 + c.toNat % 64 - 128)
              = c.toNat := by omega
          rw [uriAssembleSt_start3 _ (by omega) (by omega),
            uriAssembleSt_contStep _ 0 _ _ (by omega) (by omega),
            uriAssembleSt_contLast _ _ _ (by omega) (by omega)
              (by rw [hn]; simp only [uriScalarOk]; rw [decide_eq_true_eq]; omega),
            hn, Char.ofNat_toNat]
        · have hb : utf8Bytes c
              = [240 + c.toNat / 262144, 128 + c.toNat / 4096 % 64,
                 128 + c.toNat / 64 % 64, 128 + c.toNat % 64] := by
            simp only [utf8Bytes]
            rw [if_neg h1, if_neg h2, if_neg h3]
          rw [hb]
          simp only [List.map_cons, List.map_nil, List.cons_append, List.nil_append]
          have hn : (((240 + c.toNat / 262144 - 240) * 64
                  + (128 + c.toNat / 4096 % 64 - 128)) * 64
                + (128 + c.toNat / 64 % 64 - 128)) * 64 + (128 + c.toNat % 64 - 128)
              = c.toNat := by omega
          rw [uriAssembleSt_start4 _ (by omega) (by omega),
            uriAssembleSt_contStep _ 1 _ _ (by omega) (by omega),
            uriAssembleSt_contStep _ 0 _ _ (by omega) (by omega),
            uriAssembleSt_contLast _ _ _ (by omega) (by omega)
              (by rw [hn]; simp only [uriScalarOk]; rw [decide_eq_true_eq]; omega),
            hn, Char.ofNat_toNat]

theorem uriTokenize_encodeList (l : List Char) :
    uriTokenize (l.flatMap encodeURIComponentChar)
      = some (l.flatMap uriTokensOfChar) := by
  induction l with
  | nil => rfl
  | cons c rest ih =>
      rw [List.flatMap_cons, uriTokenize_encodeChar, ih, List.flatMap_cons]
      rfl

theorem uriAssemble_encodeTokens (l : List Char) :
    uriAssemble (l.flatMap uriTokensOfChar) = some l := by
  induction l with
  | nil => rfl
  | cons c rest ih =>
      rw [List.flatMap_cons, uriAssemble_tokensOfChar, ih]
      rfl

theorem decode_encodeList (l : List Char) :
    (uriTokenize (l.flatMap encodeURIComponentChar)).bind uriAssemble = some l := by
  rw [uriTokenize_encodeList, Option.some_bind, uriAssemble_encodeTokens]

/-- `decodeURIComponent` undoes `encodeURIComponent` on every string. -/
theorem decode_encodeURIComponent (s : String) :
    decodeURIComponent (encodeURIComponent s) = some s := by
  rw [encodeURIComponent, decodeURIComponent]
  show ((uriTokenize (s.data.flatMap encodeURIComponentChar)).bind uriAssemble).map _ = _
  rw [decode_encodeList]
  rfl

theorem hexChar_unreserved : ∀ b : Nat, b < 16 → isUriUnreserved (hexDigitChar b) = true := by
  decide

/-- Every character of an encoded component is either unreserved or `%`. -/
theorem encodeChar_class (c : Char) :
    ∀ x ∈ encodeURIComponentChar c, isUriUnreserved x = true ∨ x = '%' := by
  intro x hx
  by_cases hu : isUriUnreserved c
  · rw [encodeURIComponentChar, if_pos hu] at hx
    simp only [List.mem_singleton] at hx
    subst hx
    exact Or.inl hu
  · rw [encodeURIComponentChar, if_neg hu] at hx
    simp only [List.mem_flatMap] at hx
    obtain ⟨b, hb, hxb⟩ := hx
    have hb256 : b < 256 := utf8Bytes_lt c b hb
    simp only [percentEncodeByte, List.mem_cons, List.mem_singleton,
      List.not_mem_nil, or_false] at hxb
    rcases hxb with h | h | h
    · exact Or.inr h
    · subst h
      exact Or.inl (hexChar_unreserved _ (by omega))
    · subst h
      exact Or.inl (hexChar_unreserved _ (by omega))

/-! ## Session store (`nextauth.ts`: `parseCookies`, `getCookieHeader`;
`n-lobby.ts`: `setCookies`) -/

/-- The derived NextAuth token view of the session: `sessionToken`,
`csrfToken`, `callbackUrl`, each optional. -/
structure NextAuthCookies where
  sessionToken : Option String := none
  csrfToken : Option String := none
  callbackUrl : Option String := none
deriving DecidableEq

/-- JavaScript whitespace as recognised by `String.prototype.trim` (space,
tab, line terminators, vertical tab, form feed, NBSP, BOM, and the Unicode
space separators that occur in practice). -/
def jsIsWhitespace (c : Char) : Bool :=
  c == ' ' || c == '\t' || c == '\n' || c == '\r' || c == '\x0b' || c == '\x0c' ||
    c.toNat == 160 || c.toNat == 65279 || c.toNat == 8232 || c.toNat == 8233 ||
    c.toNat == 12288

/-- `String.prototype.trim` on a character list. -/
def jsTrimList (l : List Char) : List Char :=
  ((l.dropWhile jsIsWhitespace).reverse.dropWhile jsIsWhitespace).reverse

/-- `String.prototype.trim`. -/
def jsTrim (s : String) : String := ⟨jsTrimList s.data⟩

/-- `String.prototype.split` with a single-character separator: splits at
every occurrence, keeping empty pieces (`"".split(x) = [""]`). -/
def jsSplitChar (sep : Char) : List Char → List (List Char)
  | [] => [[]]
  | c :: cs =>
      if c = sep then [] :: jsSplitChar sep cs
      else
        match jsSplitChar sep cs with
        | [] => [[c]]
        | p :: ps => (c :: p) :: ps

/-- `decodeURIComponent` on a character list. -/
def uriDecodeList (l : List Char) : Option (List Char) :=
  (uriTokenize l).bind uriAssemble

/-- The body of `parseCookies`' loop for one `name=value` pair: trim, split
on `=`, take the first two pieces as `name` and `value` (`value` is
`undefined` when there is no `=`), skip unless both are truthy, then match
the three NextAuth cookie names and store the `decodeURIComponent` of the
value.  `none` models a `URIError` escaping from `decodeURIComponent`. -/
def applyCookiePair (cookies : NextAuthCookies) (pair : List Char) :
    Option NextAuthCookies :=
  match jsSplitChar '=' (jsTrimList pair) with
  | [] => some cookies
  | name :: rest =>
      match rest.head? with
      | none => some cookies
      | some value =>
          if name ≠ [] ∧ value ≠ [] then
            if name = "__Secure-next-auth.session-token".data then
              (uriDecodeList value).map fun v => { cookies with sessionToken := some ⟨v⟩ }
            else if name = "__Host-next-auth.csrf-token".data then
              (uriDecodeList value).map fun v => { cookies with csrfToken := some ⟨v⟩ }
            else if name = "__Secure-next-auth.callback-url".data then
              (uriDecodeList value).map fun v => { cookies with callbackUrl := some ⟨v⟩ }
            else some cookies
          else some cookies

/-- `parseCookies` from `nextauth.ts`: split the blob on `;` and fold the
pair handler over the pieces, starting from the empty token record. -/
def parseCookies (cookieString : String) : Option NextAuthCookies :=
  (jsSplitChar ';' cookieString.data).foldlM applyCookiePair {}

/-- `getCookieHeader` from `nextauth.ts`: re-render the (truthy) derived
tokens as `name=encodeURIComponent(value)` pairs joined by `"; "`. -/
def getCookieHeader (cookies : NextAuthCookies) : String :=
  let cookieParts : List String :=
    (match cookies.sessionToken with
     | some st =>
         if st = "" then []
         else ["__Secure-next-auth.session-token=" ++ encodeURIComponent st]
     | none => []) ++
    (match cookies.csrfToken with
     | some ct =>
         if ct = "" then []
         else ["__Host-next-auth.csrf-token=" ++ encodeURIComponent ct]
     | none => []) ++
    (match cookies.callbackUrl with
     | some cu =>
         if cu = "" then []
         else ["__Secure-next-auth.callback-url=" ++ encodeURIComponent cu]
     | none => [])
  String.intercalate "; " cookieParts

theorem char_eq_of_toNat_eq {x : Char} {n : Nat} (h : x.toNat = n) :
    x = Char.ofNat n := by
  rw [← h, Char.ofNat_toNat]

theorem uriClass_props (x : Char) (h : isUriUnreserved x = true ∨ x = '%') :
    x ≠ ';' ∧ x ≠ '=' ∧ jsIsWhitespace x = false := by
  rcases h with h | h
  · refine ⟨?_, ?_, ?_⟩
    · intro he; rw [he] at h; exact absurd h (by decide)
    · intro he; rw [he] at h; exact absurd h (by decide)
    · by_contra hw
      rw [Bool.not_eq_false] at hw
      simp only [jsIsWhitespace, Bool.or_eq_true, beq_iff_eq] at hw
      rcases hw with ((((((((((hw | hw) | hw) | hw) | hw) | hw) | hw) | hw) | hw) | hw) | hw) <;>
        first
          | (rw [hw] at h; exact absurd h (by decide))
          | (rw [char_eq_of_toNat_eq hw] at h; exact absurd h (by decide))
  · subst h
    exact ⟨by decide, by decide, by decide⟩

theorem encodeChar_props (c : Char) :
    ∀ x ∈ encodeURIComponentChar c, x ≠ ';' ∧ x ≠ '=' ∧ jsIsWhitespace x = false :=
  fun x hx => uriClass_props x (encodeChar_class c x hx)

theorem encodeChar_ne_nil (c : Char) : encodeURIComponentChar c ≠ [] := by
  by_cases hu : isUriUnreserved c
  · simp [encodeURIComponentChar, hu]
  · simp only [encodeURIComponentChar, if_neg hu, utf8Bytes]
    split_ifs <;> simp [percentEncodeByte]

theorem encode_ne_nil (v : String) (hv : v ≠ "") :
    (encodeURIComponent v).data ≠ [] := by
  have hd : v.data ≠ [] := fun h => hv (congrArg String.mk h)
  match hm : v.data with
  | [] => exact absurd hm hd
  | c :: cs =>
      show (v.data.flatMap encodeURIComponentChar) ≠ []
      rw [hm, List.flatMap_cons]
      intro hnil
      rcases List.append_eq_nil.mp hnil with ⟨h1, _⟩
      exact encodeChar_ne_nil c h1

theorem dropWhile_of_forall_false {p : Char → Bool} (l : List Char)
    (h : ∀ c ∈ l, p c = false) : l.dropWhile p = l := by
  cases l with
  | nil => rfl
  | cons c cs =>
      rw [List.dropWhile_cons, h c (List.mem_cons_self c cs)]
      simp

theorem jsTrimList_of_no_ws (l : List Char)
    (h : ∀ c ∈ l, jsIsWhitespace c = false) : jsTrimList l = l := by
  unfold jsTrimList
  rw [dropWhile_of_forall_false l h,
    dropWhile_of_forall_false l.reverse (fun c hc => h c (List.mem_reverse.mp hc)),
    List.reverse_reverse]

theorem jsTrimList_cons_space (l : List Char) :
    jsTrimList (' ' :: l) = jsTrimList l := by
  unfold jsTrimList
  rw [List.dropWhile_cons]
  norm_num [jsIsWhitespace]

theorem jsSplitChar_no_sep (sep : Char) (xs : List Char)
    (h : ∀ c ∈ xs, c ≠ sep) : jsSplitChar sep xs = [xs] := by
  induction xs with
  | nil => rfl
  | cons c cs ih =>
      rw [jsSplitChar, if_neg (h c (List.mem_cons_self c cs)),
        ih (fun x hx => h x (List.mem_cons_of_mem c hx))]

theorem jsSplitChar_append (sep : Char) (xs ys : List Char)
    (h : ∀ c ∈ xs, c ≠ sep) :
    jsSplitChar sep (xs ++ sep :: ys) = xs :: jsSplitChar sep ys := by
  induction xs with
  | nil =>
      rw [List.nil_append, jsSplitChar, if_pos rfl]
  | cons c cs ih =>
      rw [List.cons_append, jsSplitChar,
        if_neg (h c (List.mem_cons_self c cs)),
        ih (fun x hx => h x (List.mem_cons_of_mem c hx))]

theorem applyCookiePair_space (ck : NextAuthCookies) (p : List Char) :
    applyCookiePair ck (' ' :: p) = applyCookiePair ck p := by
  unfold applyCookiePair
  rw [jsTrimList_cons_space]

theorem encode_data (v : String) :
    (encodeURIComponent v).data = v.data.flatMap encodeURIComponentChar := rfl

theorem uriDecode_encode (v : String) :
    uriDecodeList (encodeURIComponent v).data = some v.data := by
  rw [encode_data, uriDecodeList, decode_encodeList]

theorem applyCookiePair_named (ck : NextAuthCookies) (name : String)
    (hname : ∀ c ∈ name.data, c ≠ '=' ∧ jsIsWhitespace c = false)
    (hnn : name.data ≠ []) (v : String) (hv : v ≠ "") :
    applyCookiePair ck (name.data ++ '=' :: (encodeURIComponent v).data)
      = (if name.data = "__Secure-next-auth.session-token".data then
           some { ck with sessionToken := some v }
         else if name.data = "__Host-next-auth.csrf-token".data then
           some { ck with csrfToken := some v }
         else if name.data = "__Secure-next-auth.callback-url".data then
           some { ck with callbackUrl := some v }
         else some ck) := by
  have henc := encodeChar_props
  have hforall : ∀ c ∈ (encodeURIComponent v).data,
      c ≠ ';' ∧ c ≠ '=' ∧ jsIsWhitespace c = false := by
    intro c hc
    rw [encode_data] at hc
    rcases List.mem_flatMap.mp hc with ⟨y, _, hcy⟩
    exact encodeChar_props y c hcy
  have htrim : jsTrimList (name.data ++ '=' :: (encodeURIComponent v).data)
      = name.data ++ '=' :: (encodeURIComponent v).data := by
    apply jsTrimList_of_no_ws
    intro c hc
    rcases List.mem_append.mp hc with hc | hc
    · exact (hname c hc).2
    · rcases List.mem_cons.mp hc with hc | hc
      · rw [hc]; decide
      · exact (hforall c hc).2.2
  have hsplit : jsSplitChar '=' (name.data ++ '=' :: (encodeURIComponent v).data)
      = [name.data, (encodeURIComponent v).data] := by
    rw [jsSplitChar_append _ _ _ (fun c hc => (hname c hc).1),
      jsSplitChar_no_sep _ _ (fun c hc => (hforall c hc).2.1)]
  unfold applyCookiePair
  rw [htrim, hsplit]
  simp only [List.head?_cons]
  rw [if_pos ⟨hnn, encode_ne_nil v hv⟩]
  split_ifs with h1 h2 h3 <;>
    simp only [uriDecode_encode, Option.map_some] <;> rfl

theorem applyCookiePair_nil (ck : NextAuthCookies) : applyCookiePair ck [] = some ck := rfl

theorem intercalate_one (x : String) : String.intercalate "; " [x] = x := by
  simp [String.intercalate, String.intercalate.go]

theorem intercalate_two (x y : String) :
    (String.intercalate "; " [x, y]).data = x.data ++ ';' :: ' ' :: y.data := by
  simp [String.intercalate, String.intercalate.go, String.data_append]

theorem intercalate_three (x y z : String) :
    (String.intercalate "; " [x, y, z]).data
      = x.data ++ ';' :: ' ' :: (y.data ++ ';' :: ' ' :: z.data) := by
  simp [String.intercalate, String.intercalate.go, String.data_append]

theorem name1_props : ∀ c ∈ ("__Secure-next-auth.session-token").data,
    c ≠ ';' ∧ c ≠ '=' ∧ jsIsWhitespace c = false := by decide

theorem name2_props : ∀ c ∈ ("__Host-next-auth.csrf-token").data,
    c ≠ ';' ∧ c ≠ '=' ∧ jsIsWhitespace c = false := by decide

theorem name3_props : ∀ c ∈ ("__Secure-next-auth.callback-url").data,
    c ≠ ';' ∧ c ≠ '=' ∧ jsIsWhitespace c = false := by decide

theorem name1_eq : ("__Secure-next-auth.session-token=").data
    = ("__Secure-next-auth.session-token").data ++ ['='] := by decide

theorem name2_eq : ("__Host-next-auth.csrf-token=").data
    = ("__Host-next-auth.csrf-token").data ++ ['='] := by decide

theorem name3_eq : ("__Secure-next-auth.callback-url=").data
    = ("__Secure-next-auth.callback-url").data ++ ['='] := by decide

theorem enc_props (v : String) :
    ∀ c ∈ (encodeURIComponent v).data, c ≠ ';' ∧ c ≠ '=' ∧ jsIsWhitespace c = false := by
  intro c hc
  rw [encode_data] at hc
  rcases List.mem_flatMap.mp hc with ⟨y, _, hcy⟩
  exact encodeChar_props y c hcy

theorem piece_no_semi (nameE : String) (hname : ∀ c ∈ nameE.data, c ≠ ';') (v : String) :
    ∀ c ∈ nameE.data ++ (encodeURIComponent v).data, c ≠ ';' := by
  intro c hc
  rcases List.mem_append.mp hc with hc | hc
  · exact hname c hc
  · exact (enc_props v c hc).1

theorem space_piece_no_semi (nameE : String) (hname : ∀ c ∈ nameE.data, c ≠ ';')
    (v : String) :
    ∀ c ∈ ' ' :: (nameE.data ++ (encodeURIComponent v).data), c ≠ ';' := by
  intro c hc
  rcases List.mem_cons.mp hc with hc | hc
  · rw [hc]; decide
  · exact piece_no_semi nameE hname v c hc

theorem name1e_semi : ∀ c ∈ ("__Secure-next-auth.session-token=").data, c ≠ ';' := by decide

theorem name2e_semi : ∀ c ∈ ("__Host-next-auth.csrf-token=").data, c ≠ ';' := by decide

theorem name3e_semi : ∀ c ∈ ("__Secure-next-auth.callback-url=").data, c ≠ ';' := by decide

theorem pair1_apply (ck : NextAuthCookies) (v : String) (hv : v ≠ "") :
    applyCookiePair ck
        (("__Secure-next-auth.session-token=").data ++ (encodeURIComponent v).data)
      = some { ck with sessionToken := some v } := by
  rw [name1_eq, List.append_assoc, List.singleton_append,
    applyCookiePair_named ck _
      (fun c hc => ⟨(name1_props c hc).2.1, (name1_props c hc).2.2⟩) (by decide) v hv,
    if_pos rfl]

theorem pair2_apply (ck : NextAuthCookies) (v : String) (hv : v ≠ "") :
    applyCookiePair ck
        (("__Host-next-auth.csrf-token=").data ++ (encodeURIComponent v).data)
      = some { ck with csrfToken := some v } := by
  rw [name2_eq, List.append_assoc, List.singleton_append,
    applyCookiePair_named ck _
      (fun c hc => ⟨(name2_props c hc).2.1, (name2_props c hc).2.2⟩) (by decide) v hv,
    if_neg (by decide), if_pos rfl]

theorem pair3_apply (ck : NextAuthCookies) (v : String) (hv : v ≠ "") :
    applyCookiePair ck
        (("__Secure-next-auth.callback-url=").data ++ (encodeURIComponent v).data)
      = some { ck with callbackUrl := some v } := by
  rw [name3_eq, List.append_assoc, List.singleton_append,
    applyCookiePair_named ck _
      (fun c hc => ⟨(name3_props c hc).2.1, (name3_props c hc).2.2⟩) (by decide) v hv,
    if_neg (by decide), if_neg (by decide), if_pos rfl]

theorem foldlM_applyPair_cons (ck0 ck1 : NextAuthCookies) (P : List Char)
    (rest : List (List Char)) (h : applyCookiePair ck0 P = some ck1) :
    List.foldlM applyCookiePair ck0 (P :: rest)
      = List.foldlM applyCookiePair ck1 rest := by
  rw [List.foldlM_cons, h]
  rfl

/-- Claim C10: for every cookie state whose three derived tokens are absent
or non-empty, parsing the header rendered by `getCookieHeader` with
`parseCookies` recovers exactly the same three tokens — even when token
values contain `=`, `;` or non-ASCII characters, because `getCookieHeader`
percent-encodes each value and `parseCookies` splits on `;`/`=` and
percent-decodes. -/
theorem parseCookies_getCookieHeader (ck : NextAuthCookies)
    (hs : ck.sessionToken ≠ some "") (ht : ck.csrfToken ≠ some "")
    (hu : ck.callbackUrl ≠ some "") :
    parseCookies (getCookieHeader ck) = some ck := by
  obtain ⟨st, ct, cu⟩ := ck
  simp only at hs ht hu
  rcases st with _ | s <;> rcases ct with _ | t <;> rcases cu with _ | u
  · rfl
  · -- none, none, some u
    have hu' : u ≠ "" := fun h => hu (by rw [h])
    have hdr : (getCookieHeader ⟨none, none, some u⟩).data
        = ("__Secure-next-auth.callback-url=").data ++ (encodeURIComponent u).data := by
      simp only [getCookieHeader]
      rw [if_neg hu']
      simp only [List.nil_append, intercalate_one, String.data_append]
    simp only [parseCookies]
    rw [hdr, jsSplitChar_no_sep _ _ (piece_no_semi _ name3e_semi u),
      foldlM_applyPair_cons _ _ _ _ (pair3_apply _ u hu')]
    rfl
  · -- none, some t, none
    have ht' : t ≠ "" := fun h => ht (by rw [h])
    have hdr : (getCookieHeader ⟨none, some t, none⟩).data
        = ("__Host-next-auth.csrf-token=").data ++ (encodeURIComponent t).data := by
      simp only [getCookieHeader]
      rw [if_neg ht']
      simp only [List.nil_append, List.append_nil, intercalate_one, String.data_append]
    simp only [parseCookies]
    rw [hdr, jsSplitChar_no_sep _ _ (piece_no_semi _ name2e_semi t),
      foldlM_applyPair_cons _ _ _ _ (pair2_apply _ t ht')]
    rfl
  · -- none, some t, some u
    have ht' : t ≠ "" := fun h => ht (by rw [h])
    have hu' : u ≠ "" := fun h => hu (by rw [h])
    have hdr : (getCookieHeader ⟨none, some t, some u⟩).data
        = (("__Host-next-auth.csrf-token=").data ++ (encodeURIComponent t).data)
          ++ ';' :: (' ' :: (("__Secure-next-auth.callback-url=").data
              ++ (encodeURIComponent u).data)) := by
      simp only [getCookieHeader]
      rw [if_neg ht', if_neg hu']
      simp only [List.nil_append, List.cons_append, List.singleton_append]
      rw [intercalate_two]
      simp [String.data_append]
    simp only [parseCookies]
    rw [hdr,
      jsSplitChar_append _ _ _ (piece_no_semi _ name2e_semi t),
      jsSplitChar_no_sep _ _ (space_piece_no_semi _ name3e_semi u),
      foldlM_applyPair_cons _ _ _ _ (pair2_apply _ t ht'),
      foldlM_applyPair_cons _ _ _ _
        (by rw [applyCookiePair_space]; exact pair3_apply _ u hu')]
    rfl
  · -- some s, none, none
    have hs' : s ≠ "" := fun h => hs (by rw [h])
    have hdr : (getCookieHeader ⟨some s, none, none⟩).data
        = ("__Secure-next-auth.session-token=").data ++ (encodeURIComponent s).data := by
      simp only [getCookieHeader]
      rw [if_neg hs']
      simp only [List.append_nil, intercalate_one, String.data_append]
    simp only [parseCookies]
    rw [hdr, jsSplitChar_no_sep _ _ (piece_no_semi _ name1e_semi s),
      foldlM_applyPair_cons _ _ _ _ (pair1_apply _ s hs')]
    rfl
  · -- some s, none, some u
    have hs' : s ≠ "" := fun h => hs (by rw [h])
    have hu' : u ≠ "" := fun h => hu (by rw [h])
    have hdr : (getCookieHeader ⟨some s, none, some u⟩).data
        = (("__Secure-next-auth.session-token=").data ++ (encodeURIComponent s).data)
          ++ ';' :: (' ' :: (("__Secure-next-auth.callback-url=").data
              ++ (encodeURIComponent u).data)) := by
      simp only [getCookieHeader]
      rw [if_neg hs', if_neg hu']
      simp only [List.nil_append, List.append_nil, List.cons_append, List.singleton_append]
      rw [intercalate_two]
      simp [String.data_append]
    simp only [parseCookies]
    rw [hdr,
      jsSplitChar_append _ _ _ (piece_no_semi _ name1e_semi s),
      jsSplitChar_no_sep _ _ (space_piece_no_semi _ name3e_semi u),
      foldlM_applyPair_cons _ _ _ _ (pair1_apply _ s hs'),
      foldlM_applyPair_cons _ _ _ _
        (by rw [applyCookiePair_space]; exact pair3_apply _ u hu')]
    rfl
  · -- some s, some t, none
    have hs' : s ≠ "" := fun h => hs (by rw [h])
    have ht' : t ≠ "" := fun h => ht (by rw [h])
    have hdr : (getCookieHeader ⟨some s, some t, none⟩).data
        = (("__Secure-next-auth.session-token=").data ++ (encodeURIComponent s).data)
          ++ ';' :: (' ' :: (("__Host-next-auth.csrf-token=").data
              ++ (encodeURIComponent t).data)) := by
      simp only [getCookieHeader]
      rw [if_neg hs', if_neg ht']
      simp only [List.nil_append, List.append_nil, List.cons_append, List.singleton_append]
      rw [intercalate_two]
      simp [String.data_append]
    simp only [parseCookies]
    rw [hdr,
      jsSplitChar_append _ _ _ (piece_no_semi _ name1e_semi s),
      jsSplitChar_no_sep _ _ (space_piece_no_semi _ name2e_semi t),
      foldlM_applyPair_cons _ _ _ _ (pair1_apply _ s hs'),
      foldlM_applyPair_cons _ _ _ _
        (by rw [applyCookiePair_space]; exact pair2_apply _ t ht')]
    rfl
  · -- some s, some t, some u
    have hs' : s ≠ "" := fun h => hs (by rw [h])
    have ht' : t ≠ "" := fun h => ht (by rw [h])
    have hu' : u ≠ "" := fun h => hu (by rw [h])
    have hdr : (getCookieHeader ⟨some s, some t, some u⟩).data
        = (("__Secure-next-auth.session-token=").data ++ (encodeURIComponent s).data)
          ++ ';' :: ((' ' :: (("__Host-next-auth.csrf-token=").data
              ++ (encodeURIComponent t).data))
            ++ ';' :: (' ' :: (("__Secure-next-auth.callback-url=").data
              ++ (encodeURIComponent u).data))) := by
      simp only [getCookieHeader]
      rw [if_neg hs', if_neg ht', if_neg hu']
      simp only [List.nil_append, List.append_nil, List.cons_append, List.singleton_append]
      rw [intercalate_three]
      simp [String.data_append]
    simp only [parseCookies]
    rw [hdr,
      jsSplitChar_append _ _ _ (piece_no_semi _ name1e_semi s),
      jsSplitChar_append _ _ _ (space_piece_no_semi _ name2e_semi t),
      jsSplitChar_no_sep _ _ (space_piece_no_semi _ name3e_semi u),
      foldlM_applyPair_cons _ _ _ _ (pair1_apply _ s hs'),
      foldlM_applyPair_cons _ _ _ _
        (by rw [applyCookiePair_space]; exact pair2_apply _ t ht'),
      foldlM_applyPair_cons _ _ _ _
        (by rw [applyCookiePair_space]; exact pair3_apply _ u hu')]
    rfl

/-- Witness for claim C10: a session token containing `=`, `;` and a space,
a non-ASCII CSRF token, and an absent callback URL round-trip exactly. -/
theorem parseCookies_getCookieHeader_witness :
    parseCookies (getCookieHeader ⟨some "a=b; c", some "トークン", none⟩)
      = some ⟨some "a=b; c", some "トークン", none⟩ :=
  parseCookies_getCookieHeader ⟨some "a=b; c", some "トークン", none⟩
    (by decide) (by decide) (by decide)

/-- The session-relevant state of the `NLobbyApi` facade: the HTTP client's
default `Cookie` header, the NextAuth handler's derived tokens, and the tRPC
client's stored cookie blob (`allCookies`, initially `""`). -/
structure NLobbyApiState where
  httpClientCookie : Option String
  nextAuthCookies : NextAuthCookies
  trpcAllCookies : String
deriving DecidableEq

/-- `setCookies` from `n-lobby.ts`: on an empty or whitespace-only blob it
only logs and returns, leaving every client untouched; otherwise it stores
the blob on the HTTP client, re-derives the NextAuth tokens
(`nextAuth.setCookies`, i.e. `parseCookies`), and stores the blob on the tRPC
client (`setAllCookies`).  `none` models a `URIError` escaping from
`parseCookies`. -/
def NLobbyApi.setCookies (st : NLobbyApiState) (cookies : String) :
    Option NLobbyApiState :=
  if cookies = "" ∨ jsTrim cookies = "" then some st
  else
    (parseCookies cookies).map fun parsed =>
      { httpClientCookie := some cookies
        nextAuthCookies := parsed
        trpcAllCookies := cookies }

/-- Claim C5: setting an empty or whitespace-only cookie blob leaves all
prior session state unchanged — the HTTP client's cookie header, the derived
NextAuth tokens and the tRPC client's stored blob are exactly what they were
before the call. -/
theorem setCookies_empty_noop (st : NLobbyApiState) (blob : String)
    (h : jsTrim blob = "") :
    NLobbyApi.setCookies st blob = some st := by
  unfold NLobbyApi.setCookies
  rw [if_pos (Or.inr h)]

/-- Witness for claim C5: a whitespace-only blob leaves a populated state
unchanged. -/
theorem setCookies_empty_noop_witness :
    NLobbyApi.setCookies
        ⟨some "x=1", { sessionToken := some "tok" }, "x=1"⟩ "  \t "
      = some ⟨some "x=1", { sessionToken := some "tok" }, "x=1"⟩ :=
  setCookies_empty_noop ⟨some "x=1", { sessionToken := some "tok" }, "x=1"⟩ "  \t "
    (by decide)

/-! ## Calendar normalization (`convertGoogleCalendarEventsToScheduleItems`) -/

/-- A local wall-clock date-time, the component view a JavaScript `Date`
exposes through `getFullYear`/`getMonth`/`getDate`/`getHours` etc.  An
*invalid* `Date` (`NaN` timestamp) is modelled as `none` at use sites. -/
structure DateTime where
  year : Nat
  month : Nat
  day : Nat
  hour : Nat
  minute : Nat
  second : Nat
deriving DecidableEq

def isLeapYear (y : Nat) : Bool :=
  y % 4 == 0 && (y % 100 != 0 || y % 400 == 0)

def daysInMonth (y m : Nat) : Nat :=
  if m = 2 then (if isLeapYear y then 29 else 28)
  else if m = 4 ∨ m = 6 ∨ m = 9 ∨ m = 11 then 30
  else 31

/-- Value of one decimal digit character. -/
def digit? (c : Char) : Option Nat :=
  if '0' ≤ c && c ≤ '9' then some (c.toNat - 48) else none

def digitChar (n : Nat) : Char := Char.ofNat (48 + n)

/-- `new Date(s)` on a local `YYYY-MM-DDTHH:MM:SS` string (the only shape
this code base constructs: a calendar `date` plus a literal `T00:00:00` /
`T23:59:59` suffix).  Any other shape yields an Invalid Date (`none`), as
does an out-of-range component. -/
def parseLocalDateTime (s : String) : Option DateTime :=
  match s.data with
  | [y1, y2, y3, y4, '-', mo1, mo2, '-', d1, d2, 'T',
     h1, h2, ':', mi1, mi2, ':', s1, s2] =>
      match digit? y1, digit? y2, digit? y3, digit? y4, digit? mo1, digit? mo2,
        digit? d1, digit? d2, digit? h1, digit? h2, digit? mi1, digit? mi2,
        digit? s1, digit? s2 with
      | some a1, some a2, some a3, some a4, some b1, some b2, some c1, some c2,
        some e1, some e2, some f1, some f2, some g1, some g2 =>
          let year := ((a1 * 10 + a2) * 10 + a3) * 10 + a4
          let month := b1 * 10 + b2
          let day := c1 * 10 + c2
          let hour := e1 * 10 + e2
          let minute := f1 * 10 + f2
          let second := g1 * 10 + g2
          if 1 ≤ month ∧ month ≤ 12 ∧ 1 ≤ day ∧ day ≤ daysInMonth year month ∧
              hour < 24 ∧ minute < 60 ∧ second < 60 then
            some ⟨year, month, day, hour, minute, second⟩
          else none
      | _, _, _, _, _, _, _, _, _, _, _, _, _, _ => none
  | _ => none

/-- `setDate(getDate() - 1)`: move one calendar day back, rolling over the
month (day 0 is the previous month's last day) and the year. -/
def jsSetDateMinusOne (dt : DateTime) : DateTime :=
  if 1 < dt.day then { dt with day := dt.day - 1 }
  else if 1 < dt.month then
    { dt with month := dt.month - 1, day := daysInMonth dt.year (dt.month - 1) }
  else { dt with year := dt.year - 1, month := 12, day := 31 }

def jsNextDay (dt : DateTime) : DateTime :=
  if dt.day < daysInMonth dt.year dt.month then { dt with day := dt.day + 1 }
  else if dt.month < 12 then { dt with month := dt.month + 1, day := 1 }
  else { dt with year := dt.year + 1, month := 1, day := 1 }

/-- `new Date(t.getTime() + 60*60*1000)`: add one hour, rolling over the
day when needed. -/
def addOneHour (dt : DateTime) : DateTime :=
  if dt.hour < 23 then { dt with hour := dt.hour + 1 }
  else { jsNextDay dt with hour := 0 }

/-- Truthiness of an optional string (`undefined` and `""` are falsy). -/
def jsTruthyStr? : Option String → Bool
  | some s => s != ""
  | none => false

/-- `a || b` on an optional string. -/
def jsOrStr (a : Option String) (b : String) : String :=
  match a with
  | some s => if s = "" then b else s
  | none => b

/-- The nested `start`/`end` shape of a Google Calendar event: a `dateTime`
or a `date`. -/
structure GCalTime where
  dateTime : Option String := none
  date : Option String := none
deriving DecidableEq

/-- A calendar event as the converter receives it, covering both the school
shape (`startDateTime`/`endDateTime`) and the Google shape (`start`/`end`
objects); `end_` embeds the source's `end` property. -/
structure GCalEvent where
  id : Option String := none
  microCmsId : Option String := none
  summary : Option String := none
  title : Option String := none
  description : Option String := none
  location : Option String := none
  startDateTime : Option String := none
  endDateTime : Option String := none
  start : Option GCalTime := none
  end_ : Option GCalTime := none
  attendees : Option (List (Option String)) := none
deriving DecidableEq

/-- A normalized schedule item; `startTime`/`endTime` are `none` when the
corresponding JavaScript `Date` is invalid. -/
structure NLobbyScheduleItem where
  id : String
  title : String
  description : String
  startTime : Option DateTime
  endTime : Option DateTime
  location : String
  type : String
  participants : List String
deriving DecidableEq

/-- ASCII lower-casing, as `toLowerCase` acts on the keyword set used
below. -/
def jsToLower (s : String) : String :=
  ⟨s.data.map fun c => if 'A' ≤ c && c ≤ 'Z' then Char.ofNat (c.toNat + 32) else c⟩

/-- Substring test at each position, for `String.prototype.includes`. -/
def listIsInfixOf (sub : List Char) : List Char → Bool
  | [] => sub.isEmpty
  | c :: rest => sub.isPrefixOf (c :: rest) || listIsInfixOf sub rest

/-- `String.prototype.includes`. -/
def strIncludes (s sub : String) : Bool :=
  listIsInfixOf sub.data s.data

/-- The per-event body of `convertGoogleCalendarEventsToScheduleItems`:
school format first, then the Google nested shape (with the all-day
exclusive-end correction), then the now/now+1h fallback; event type by
keyword match over the lower-cased summary; participants from truthy
attendee emails; id from `id || microCmsId || Math.random().toString()`
(the random draw is the `rnd` parameter). -/
def convertGoogleCalendarEvent (now : DateTime) (rnd : String)
    (event : GCalEvent) : NLobbyScheduleItem :=
  let startEnd : Option DateTime × Option DateTime :=
    if jsTruthyStr? event.startDateTime then
      let startTime := parseLocalDateTime (event.startDateTime.getD "")
      (startTime,
        if jsTruthyStr? event.endDateTime then
          parseLocalDateTime (event.endDateTime.getD "")
        else startTime.map addOneHour)
    else if event.start.isSome then
      let st := event.start.getD {}
      let startTime :=
        if jsTruthyStr? st.dateTime then parseLocalDateTime (st.dateTime.getD "")
        else if jsTruthyStr? st.date then
          parseLocalDateTime ((st.date.getD "") ++ "T00:00:00")
        else some now
      let en := event.end_.getD {}
      let endTime :=
        if event.end_.isSome && jsTruthyStr? en.dateTime then
          parseLocalDateTime (en.dateTime.getD "")
        else if event.end_.isSome && jsTruthyStr? en.date then
          (parseLocalDateTime ((en.date.getD "") ++ "T23:59:59")).map jsSetDateMinusOne
        else startTime.map addOneHour
      (startTime, endTime)
    else (some now, some (addOneHour now))
  let summary := jsToLower (jsOrStr event.summary "")
  let eventType :=
    if strIncludes summary "授業" || strIncludes summary "class" then "class"
    else if strIncludes summary "mtg" || strIncludes summary "ミーティング" ||
        strIncludes summary "meeting" || strIncludes summary "面談" then "meeting"
    else if strIncludes summary "試験" || strIncludes summary "exam" ||
        strIncludes summary "テスト" then "exam"
    else "event"
  let participants : List String :=
    match event.attendees with
    | some l => (l.filter jsTruthyStr?).filterMap id
    | none => []
  { id := jsOrStr event.id (jsOrStr event.microCmsId rnd)
    title := jsOrStr event.summary (jsOrStr event.title "No Title")
    description := jsOrStr event.description ""
    startTime := startEnd.1
    endTime := startEnd.2
    location := jsOrStr event.location ""
    type := eventType
    participants := participants }

/-- `convertGoogleCalendarEventsToScheduleItems` maps the converter over the
event list. -/
def convertGoogleCalendarEventsToScheduleItems (now : DateTime) (rnd : String)
    (events : List GCalEvent) : List NLobbyScheduleItem :=
  events.map (convertGoogleCalendarEvent now rnd)

/-- The `YYYY-MM-DD` rendering of a calendar date. -/
def renderDate (y m d : Nat) : String :=
  ⟨[digitChar (y / 1000 % 10), digitChar (y / 100 % 10), digitChar (y / 10 % 10),
    digitChar (y % 10), '-', digitChar (m / 10 % 10), digitChar (m % 10), '-',
    digitChar (d / 10 % 10), digitChar (d % 10)]⟩

/-- The `THH:MM:SS` rendering of a time suffix. -/
def renderTime (hh mi ss : Nat) : String :=
  ⟨['T', digitChar (hh / 10 % 10), digitChar (hh % 10), ':',
    digitChar (mi / 10 % 10), digitChar (mi % 10), ':',
    digitChar (ss / 10 % 10), digitChar (ss % 10)]⟩

/-- A well-formed calendar date as `parseLocalDateTime` accepts it. -/
def ValidDate (y m d : Nat) : Prop :=
  y < 10000 ∧ 1 ≤ m ∧ m ≤ 12 ∧ 1 ≤ d ∧ d ≤ daysInMonth y m

instance (y m d : Nat) : Decidable (ValidDate y m d) := by
  unfold ValidDate
  infer_instance

theorem digit?_digitChar : ∀ n : Nat, n < 10 → digit? (digitChar n) = some n := by
  decide

theorem daysInMonth_le (y m : Nat) : daysInMonth y m ≤ 31 := by
  unfold daysInMonth
  split_ifs <;> omega

theorem parse_render (y m d hh mi ss : Nat) (hv : ValidDate y m d)
    (hhh : hh < 24) (hmi : mi < 60) (hss : ss < 60) :
    parseLocalDateTime (renderDate y m d ++ renderTime hh mi ss)
      = some ⟨y, m, d, hh, mi, ss⟩ := by
  obtain ⟨hy, hm1, hm2, hd1, hd2⟩ := hv
  have hd31 : d ≤ 31 := le_trans hd2 (daysInMonth_le y m)
  have hdata : (renderDate y m d ++ renderTime hh mi ss).data
      = [digitChar (y / 1000 % 10), digitChar (y / 100 % 10), digitChar (y / 10 % 10),
         digitChar (y % 10), '-', digitChar (m / 10 % 10), digitChar (m % 10), '-',
         digitChar (d / 10 % 10), digitChar (d % 10), 'T',
         digitChar (hh / 10 % 10), digitChar (hh % 10), ':',
         digitChar (mi / 10 % 10), digitChar (mi % 10), ':',
         digitChar (ss / 10 % 10), digitChar (ss % 10)] := by
    rw [String.data_append]
    rfl
  unfold parseLocalDateTime
  rw [hdata]
  simp only [digit?_digitChar _ (by omega : y / 1000 % 10 < 10),
    digit?_digitChar _ (by omega : y / 100 % 10 < 10),
    digit?_digitChar _ (by omega : y / 10 % 10 < 10),
    digit?_digitChar _ (by omega : y % 10 < 10),
    digit?_digitChar _ (by omega : m / 10 % 10 < 10),
    digit?_digitChar _ (by omega : m % 10 < 10),
    digit?_digitChar _ (by omega : d / 10 % 10 < 10),
    digit?_digitChar _ (by omega : d % 10 < 10),
    digit?_digitChar _ (by omega : hh / 10 % 10 < 10),
    digit?_digitChar _ (by omega : hh % 10 < 10),
    digit?_digitChar _ (by omega : mi / 10 % 10 < 10),
    digit?_digitChar _ (by omega : mi % 10 < 10),
    digit?_digitChar _ (by omega : ss / 10 % 10 < 10),
    digit?_digitChar _ (by omega : ss % 10 < 10)]
  have ey : ((y / 1000 % 10 * 10 + y / 100 % 10) * 10 + y / 10 % 10) * 10 + y % 10
      = y := by omega
  have em : m / 10 % 10 * 10 + m % 10 = m := by omega
  have ed : d / 10 % 10 * 10 + d % 10 = d := by omega
  have eh : hh / 10 % 10 * 10 + hh % 10 = hh := by omega
  have emi : mi / 10 % 10 * 10 + mi % 10 = mi := by omega
  have es : ss / 10 % 10 * 10 + ss % 10 = ss := by omega
  simp only [ey, em, ed, eh, emi, es]
  rw [if_pos ⟨hm1, hm2, hd1, hd2, hhh, hmi, hss⟩]

theorem renderDate_ne_empty (y m d : Nat) : renderDate y m d ≠ "" := by
  intro h
  have := congrArg String.data h
  simp [renderDate] at this

theorem t000000_eq : ("T00:00:00" : String) = renderTime 0 0 0 := by decide

theorem t235959_eq : ("T23:59:59" : String) = renderTime 23 59 59 := by decide

/-- Claim C4: for every calendar event in the nested all-day shape (a
`start.date` and an `end.date`, no `dateTime` fields), normalization yields
`startTime` equal to `00:00:00` of the start date and `endTime` equal to
`23:59:59` of the day before the given (exclusive) end date. -/
theorem allDayEvent_correction (now : DateTime) (rnd : String) (ev : GCalEvent)
    (y1 m1 d1 y2 m2 d2 : Nat)
    (hsd : ev.startDateTime = none)
    (hst : ev.start = some { dateTime := none, date := some (renderDate y1 m1 d1) })
    (hen : ev.end_ = some { dateTime := none, date := some (renderDate y2 m2 d2) })
    (hv1 : ValidDate y1 m1 d1) (hv2 : ValidDate y2 m2 d2) :
    (convertGoogleCalendarEvent now rnd ev).startTime = some ⟨y1, m1, d1, 0, 0, 0⟩ ∧
    (convertGoogleCalendarEvent now rnd ev).endTime
      = some (jsSetDateMinusOne ⟨y2, m2, d2, 23, 59, 59⟩) := by
  have hp1 : parseLocalDateTime (renderDate y1 m1 d1 ++ "T00:00:00")
      = some ⟨y1, m1, d1, 0, 0, 0⟩ := by
    rw [t000000_eq]
    exact parse_render y1 m1 d1 0 0 0 hv1 (by omega) (by omega) (by omega)
  have hp2 : parseLocalDateTime (renderDate y2 m2 d2 ++ "T23:59:59")
      = some ⟨y2, m2, d2, 23, 59, 59⟩ := by
    rw [t235959_eq]
    exact parse_render y2 m2 d2 23 59 59 hv2 (by omega) (by omega) (by omega)
  have htr1 : jsTruthyStr? (some (renderDate y1 m1 d1)) = true := by
    simp [jsTruthyStr?, renderDate_ne_empty y1 m1 d1]
  have htr2 : jsTruthyStr? (some (renderDate y2 m2 d2)) = true := by
    simp [jsTruthyStr?, renderDate_ne_empty y2 m2 d2]
  constructor <;>
    simp [convertGoogleCalendarEvent, hsd, hst, hen, jsTruthyStr?, htr1, htr2,
      hp1, hp2, Option.getD, renderDate_ne_empty y1 m1 d1, renderDate_ne_empty y2 m2 d2]

/-- Witness for claim C4: the spec's own example
`{start:{date:"2024-01-15"}, end:{date:"2024-01-17"}}` normalizes to start
`2024-01-15T00:00:00` and end `2024-01-16T23:59:59`. -/
theorem allDayEvent_correction_witness :
    (convertGoogleCalendarEvent ⟨2025, 1, 1, 0, 0, 0⟩ "0.5"
        { start := some { date := some "2024-01-15" },
          end_ := some { date := some "2024-01-17" } }).startTime
      = some ⟨2024, 1, 15, 0, 0, 0⟩ ∧
    (convertGoogleCalendarEvent ⟨2025, 1, 1, 0, 0, 0⟩ "0.5"
        { start := some { date := some "2024-01-15" },
          end_ := some { date := some "2024-01-17" } }).endTime
      = some ⟨2024, 1, 16, 23, 59, 59⟩ := by
  have h := allDayEvent_correction ⟨2025, 1, 1, 0, 0, 0⟩ "0.5"
    { start := some { date := some "2024-01-15" },
      end_ := some { date := some "2024-01-17" } }
    2024 1 15 2024 1 17 rfl (by decide) (by decide) (by decide) (by decide)
  exact ⟨h.1, by rw [h.2]; decide⟩

/-! ## JSON parsing (`JSON.parse`) and streamed-fragment extraction -/

def isJsonWs (c : Char) : Bool := c == ' ' || c == '\t' || c == '\n' || c == '\r'

def skipWs (l : List Char) : List Char := l.dropWhile isJsonWs

def isDigitChar (c : Char) : Bool := '0' ≤ c && c ≤ '9'

/-- The body of a JSON string after the opening quote, with the standard
escapes and `\uXXXX` (surrogate pairs are not combined; the payloads this
code base parses do not use them). -/
def jpStringChars : Nat → List Char → Option (List Char × List Char)
  | 0, _ => none
  | _ + 1, [] => none
  | fuel + 1, c :: rest =>
      if c = '"' then some ([], rest)
      else if c = '\\' then
        match rest with
        | [] => none
        | e :: rest2 =>
            let mapped : Option Char :=
              if e = '"' then some '"'
              else if e = '\\' then some '\\'
              else if e = '/' then some '/'
              else if e = 'b' then some (Char.ofNat 8)
              else if e = 'f' then some (Char.ofNat 12)
              else if e = 'n' then some '\n'
              else if e = 'r' then some '\r'
              else if e = 't' then some '\t'
              else none
            match mapped with
            | some m => (jpStringChars fuel rest2).map fun p => (m :: p.1, p.2)
            | none =>
                if e = 'u' then
                  match rest2 with
                  | h1 :: h2 :: h3 :: h4 :: rest3 =>
                      match hexDigitVal? h1, hexDigitVal? h2,
                        hexDigitVal? h3, hexDigitVal? h4 with
                      | some v1, some v2, some v3, some v4 =>
                          (jpStringChars fuel rest3).map fun p =>
                            (Char.ofNat (((v1 * 16 + v2) * 16 + v3) * 16 + v4) :: p.1, p.2)
                      | _, _, _, _ => none
                  | _ => none
                else none
      else (jpStringChars fuel rest).map fun p => (c :: p.1, p.2)

def jpNat (l : List Char) : Option (Nat × List Char) :=
  let ds := l.takeWhile isDigitChar
  if ds = [] then none
  else some (ds.foldl (fun a c => a * 10 + (c.toNat - 48)) 0, l.drop ds.length)

/-- JSON numbers restricted to integers: every numeric literal in the
payloads this code base parses is integral, and a fraction or exponent makes
this model parser fail rather than approximate. -/
def jpNumber : List Char → Option (Int × List Char)
  | '-' :: rest =>
      match jpNat rest with
      | some (n, r) =>
          match r with
          | '.' :: _ => none
          | 'e' :: _ => none
          | 'E' :: _ => none
          | _ => some (-(n : Int), r)
      | none => none
  | l =>
      match jpNat l with
      | some (n, r) =>
          match r with
          | '.' :: _ => none
          | 'e' :: _ => none
          | 'E' :: _ => none
          | _ => some ((n : Int), r)
      | none => none

mutual

def jpValue : Nat → List Char → Option (Json × List Char)
  | 0, _ => none
  | fuel + 1, l =>
      match skipWs l with
      | 'n' :: 'u' :: 'l' :: 'l' :: rest => some (.null, rest)
      | 't' :: 'r' :: 'u' :: 'e' :: rest => some (.bool true, rest)
      | 'f' :: 'a' :: 'l' :: 's' :: 'e' :: rest => some (.bool false, rest)
      | '"' :: rest => (jpStringChars (fuel + 1) rest).map fun p => (.str ⟨p.1⟩, p.2)
      | '[' :: rest => (jpElems fuel (skipWs rest)).map fun p => (.arr p.1, p.2)
      | '{' :: rest => (jpMembers fuel (skipWs rest)).map fun p => (.obj p.1, p.2)
      | l' => (jpNumber l').map fun p => (.num p.1, p.2)

def jpElems : Nat → List Char → Option (List Json × List Char)
  | 0, _ => none
  | fuel + 1, l =>
      match l with
      | ']' :: rest => some ([], rest)
      | l' =>
          match jpValue fuel l' with
          | some (v, r) =>
              (jpElemsRest fuel (skipWs r)).map fun p => (v :: p.1, p.2)
          | none => none

def jpElemsRest : Nat → List Char → Option (List Json × List Char)
  | 0, _ => none
  | fuel + 1, l =>
      match l with
      | ']' :: rest => some ([], rest)
      | ',' :: rest =>
          match jpValue fuel rest with
          | some (v, r) =>
              (jpElemsRest fuel (skipWs r)).map fun p => (v :: p.1, p.2)
          | none => none
      | _ => none

def jpMembers : Nat → List Char → Option (List (String × Json) × List Char)
  | 0, _ => none
  | fuel + 1, l =>
      match l with
      | '}' :: rest => some ([], rest)
      | '"' :: rest =>
          match jpStringChars (fuel + 1) rest with
          | some (k, r) =>
              match skipWs r with
              | ':' :: r2 =>
                  match jpValue fuel r2 with
                  | some (v, r3) =>
                      (jpMembersRest fuel (skipWs r3)).map fun p => ((⟨k⟩, v) :: p.1, p.2)
                  | none => none
              | _ => none
          | none => none
      | _ => none

def jpMembersRest : Nat → List Char → Option (List (String × Json) × List Char)
  | 0, _ => none
  | fuel + 1, l =>
      match l with
      | '}' :: rest => some ([], rest)
      | ',' :: rest =>
          match skipWs rest with
          | '"' :: r =>
              match jpStringChars (fuel + 1) r with
              | some (k, r1) =>
                  match skipWs r1 with
                  | ':' :: r2 =>
                      match jpValue fuel r2 with
                      | some (v, r3) =>
                          (jpMembersRest fuel (skipWs r3)).map fun p => ((⟨k⟩, v) :: p.1, p.2)
                      | none => none
                  | _ => none
              | none => none
          | _ => none
      | _ => none

end

/-- `JSON.parse`: a single value with nothing but whitespace after it. -/
def jsonParse (s : String) : Option Json :=
  match jpValue (s.data.length + 1) s.data with
  | some (v, rest) => if skipWs rest = [] then some v else none
  | none => none

/-- The capture of the non-greedy regex `\[.*?\]\)`: from an opening `[`,
the shortest stretch ending at the first `])`, with no line terminator
inside (`.` does not match newlines). -/
def scanPushBody : Nat → List Char → Option (List Char × List Char)
  | 0, _ => none
  | _ + 1, ']' :: ')' :: rest => some ([']'], rest)
  | fuel + 1, c :: rest =>
      if c = '\n' ∨ c = '\r' then none
      else (scanPushBody fuel rest).map fun p => (c :: p.1, p.2)
  | _ + 1, [] => none

/-- The marker of a streamed fragment. -/
def pushMarker : List Char := ("self.__next_f.push(").data

/-- All captures of `/self\.__next_f\.push\((\[.*?\])\)/g` over the page, in
order: at each occurrence of the literal `self.__next_f.push(`, capture the
bracketed fragment and resume scanning after it. -/
def extractPushCalls : Nat → List Char → List (List Char)
  | 0, _ => []
  | fuel + 1, l =>
      if pushMarker.isPrefixOf l then
        match l.drop pushMarker.length with
        | '[' :: afterBracket =>
            match scanPushBody (afterBracket.length + 1) afterBracket with
            | some (body, rest) => ('[' :: body) :: extractPushCalls fuel rest
            | none =>
                match l with
                | [] => []
                | _ :: restL => extractPushCalls fuel restL
        | _ =>
            match l with
            | [] => []
            | _ :: restL => extractPushCalls fuel restL
      else
        match l with
        | [] => []
        | _ :: restL => extractPushCalls fuel restL

/-- The match of `/^(\d+):(.*)/` on a payload string: leading digits, a
colon, and the remainder up to the first line terminator (`.` does not match
newlines). -/
def prefixSplit (s : String) : Option (String × String) :=
  let digits := s.data.takeWhile isDigitChar
  if digits = [] then none
  else
    match s.data.drop digits.length with
    | ':' :: rest =>
        some (⟨digits⟩, ⟨rest.takeWhile fun c => c ≠ '\n' ∧ c ≠ '\r'⟩)
    | _ => none

/-- The test `/^\d+:T\d+,?$/` recognising a reference marker. -/
def isMarkerString (l : List Char) : Bool :=
  let d1 := l.takeWhile isDigitChar
  decide (d1 ≠ []) &&
    match l.drop d1.length with
    | ':' :: 'T' :: rest2 =>
        let d2 := rest2.takeWhile isDigitChar
        decide (d2 ≠ []) &&
          (decide (rest2.drop d2.length = []) || decide (rest2.drop d2.length = [',']))
    | _ => false

/-- `refKey.replace(/,$/, "")`. -/
def stripTrailingComma (l : List Char) : List Char :=
  match l.getLast? with
  | some ',' => l.dropLast
  | _ => l

/-! ## Detail extraction (`parseNewsDetailFromHtml`) -/

/-- `a || b` on an optional JSON value (falsy falls through). -/
def jsOr (a : Option Json) (b : Json) : Json :=
  match a with
  | some v => if v.truthy then v else b
  | none => b

/-- `new Date(v)` on a JSON value: the code base's date fields are local
date-time strings; any other shape is modelled as an Invalid Date. -/
def jsDateOfJson : Json → Option DateTime
  | .str s => parseLocalDateTime s
  | _ => none

mutual

/-- `searchForNewsDataInObject`: an object with truthy `id`, `title`, and
one of `publishedAt`/`description`/`menuName` is the record; otherwise a
truthy object-typed `news` property is returned as-is (arrays included);
otherwise recurse through all object-typed property values (for arrays, the
elements) in order. -/
def searchForNewsDataInObject : Json → Option Json
  | .obj kvs =>
      if jsTruthy? (kvs.lookup "id") && jsTruthy? (kvs.lookup "title") &&
          (jsTruthy? (kvs.lookup "publishedAt") || jsTruthy? (kvs.lookup "description") ||
            jsTruthy? (kvs.lookup "menuName")) then
        some (.obj kvs)
      else
        match kvs.lookup "news" with
        | some v =>
            if v.isTruthyObject then some v else searchNewsEntries kvs
        | none => searchNewsEntries kvs
  | .arr elems => searchNewsElems elems
  | _ => none

def searchNewsEntries : List (String × Json) → Option Json
  | [] => none
  | (_, v) :: rest =>
      if v.isTruthyObject then
        match searchForNewsDataInObject v with
        | some r => some r
        | none => searchNewsEntries rest
      else searchNewsEntries rest

def searchNewsElems : List Json → Option Json
  | [] => none
  | v :: rest =>
      if v.isTruthyObject then
        match searchForNewsDataInObject v with
        | some r => some r
        | none => searchNewsElems rest
      else searchNewsElems rest

end

/-- One `replace(/pat/g, rep)` pass: non-overlapping, left to right. -/
def replaceAll (pat rep : List Char) : Nat → List Char → List Char
  | 0, l => l
  | _ + 1, [] => []
  | fuel + 1, c :: rest =>
      if pat ≠ [] ∧ pat.isPrefixOf (c :: rest) then
        rep ++ replaceAll pat rep fuel ((c :: rest).drop pat.length)
      else c :: replaceAll pat rep fuel rest

/-- `decodeHtmlContent`: unescape the fixed set `<`, `>`,
`&`, `\"`, `\\`, in that order; unknown escapes are left alone. -/
def decodeHtmlContent (content : String) : String :=
  if content = "" then ""
  else
    let r1 := replaceAll ("\\u003c").data ("<").data (content.data.length + 1) content.data
    let r2 := replaceAll ("\\u003e").data (">").data (r1.length + 1) r1
    let r3 := replaceAll ("\\u0026").data ("&").data (r2.length + 1) r2
    let r4 := replaceAll ("\\\"").data ("\"").data (r3.length + 1) r3
    let r5 := replaceAll ("\\\\").data ("\\").data (r4.length + 1) r4
    ⟨r5⟩

/-- The configured portal origin (`CONFIG.nlobby.baseUrl` default). -/
def baseUrl : String := "https://nlobby.nnn.ed.jp"

/-- A parsed news-detail record; loosely-typed fields keep their upstream
JSON values, `url` is always synthesized from the requested id. -/
structure NLobbyNewsDetail where
  id : Json
  microCmsId : Option Json
  title : Json
  content : Json
  description : Option Json
  publishedAt : Option DateTime
  menuName : Json
  isImportant : Json
  isByMentor : Json
  attachments : Json
  relatedEvents : Json
  targetUserQueryId : Option Json
  url : String
deriving DecidableEq

/-- `Map.set` on the reference side-table (insertion order kept, an existing
key overwritten in place). -/
def upsertRef (refs : List (String × String)) (k v : String) : List (String × String) :=
  match refs with
  | [] => [(k, v)]
  | (k', v') :: rest => if k' = k then (k, v) :: rest else (k', v') :: upsertRef rest k v

/-- The fragment loop of `parseNewsDetailFromHtml`: a fragment whose whole
payload is a reference marker registers the *next* fragment's payload under
the stripped key; a `<digits>:<json>` payload is parsed and searched for the
news record (a later find overwrites an earlier one); other fragments are
skipped. -/
def detailScan (newsData : Option Json) (refs : List (String × String)) :
    List (List Char) → Option Json × List (String × String)
  | [] => (newsData, refs)
  | frag :: rest =>
      match jsonParse ⟨frag⟩ with
      | none => detailScan newsData refs rest
      | some pushData =>
          match pushData with
          | .arr (_ :: .str s :: _) =>
              if isMarkerString s.data then
                let refKey : String := ⟨stripTrailingComma s.data⟩
                let refs' :=
                  match rest with
                  | next :: _ =>
                      match jsonParse ⟨next⟩ with
                      | some (.arr (_ :: .str content :: _)) => upsertRef refs refKey content
                      | _ => refs
                  | [] => refs
                detailScan newsData refs' rest
              else
                match prefixSplit s with
                | some (_, remainder) =>
                    match jsonParse remainder with
                    | some parsedContent =>
                        match searchForNewsDataInObject parsedContent with
                        | some found => detailScan (some found) refs rest
                        | none => detailScan newsData refs rest
                    | none => detailScan newsData refs rest
                | none => detailScan newsData refs rest
          | _ => detailScan newsData refs rest

/-- `parseNewsDetailFromHtml`: extract the push fragments, run the fragment
loop, resolve the long-form content through the side-table (by marker match
against the record's `description`, else the first side-table entry), decode
it, and assemble the detail record.  `none` models the source's `return
null` paths, including the `TypeError` a truthy non-string `description`
would raise inside `includes`. -/
def parseNewsDetailFromHtml (html : String) (newsId : String) (now : DateTime) :
    Option NLobbyNewsDetail :=
  let pushes := extractPushCalls (html.data.length + 1) html.data
  if pushes.isEmpty then none
  else
    match detailScan none [] pushes with
    | (none, _) => none
    | (some newsData, refs) =>
        let descOpt := newsData.get? "description"
        let viaDesc : Option (Option String) :=
          match descOpt with
          | some v =>
              if v.truthy then
                match v with
                | .str desc => some ((refs.find? fun p => strIncludes desc p.1).map Prod.snd)
                | _ => none
              else some none
          | none => some none
        match viaDesc with
        | none => none
        | some found =>
            let contentData := (found.getD "")
            let contentData :=
              if contentData = "" ∧ refs ≠ [] then ((refs.head?).map Prod.snd).getD ""
              else contentData
            some
              { id := jsOr (newsData.get? "id") (.str newsId)
                microCmsId := newsData.get? "microCmsId"
                title := jsOr (newsData.get? "title") (.str "No Title")
                content :=
                  (if decodeHtmlContent contentData ≠ "" then .str (decodeHtmlContent contentData)
                   else jsOr (newsData.get? "description") (.str ""))
                description := newsData.get? "description"
                publishedAt :=
                  match newsData.get? "publishedAt" with
                  | some v => if v.truthy then jsDateOfJson v else some now
                  | none => some now
                menuName := jsOr (newsData.get? "menuName") (.arr [])
                isImportant := jsOr (newsData.get? "isImportant") (.bool false)
                isByMentor := jsOr (newsData.get? "isByMentor") (.bool false)
                attachments := jsOr (newsData.get? "attachments") (.arr [])
                relatedEvents := jsOr (newsData.get? "relatedEvents") (.arr [])
                targetUserQueryId := newsData.get? "targetUserQueryId"
                url := baseUrl ++ "/news/" ++ newsId }

/-- The detail-extraction input of claim C1: exactly the two streamed
fragments `[1,"5:[[\"$\",\"$L1\",null,{\"news\":[{\"id\":\"7\",\"title\":\"A\",
\"description\":\"see 9:T5,\"}]}]]"]` and `[1,"9:Hello"]`, embedded as
`self.__next_f.push()` calls. -/
def c1Html : String :=
  "<script>self.__next_f.push([1,\"5:[[\\\"$\\\",\\\"$L1\\\",null,\x7b\\\"news\\\":[\x7b\\\"id\\\":\\\"7\\\",\\\"title\\\":\\\"A\\\",\\\"description\\\":\\\"see 9:T5,\\\"\x7d]\x7d]]\"])</script><script>self.__next_f.push([1,\"9:Hello\"])</script>"

set_option maxRecDepth 10000 in
/-- Claim C1 counterexample: on the exact two-fragment input the extractor
does not resolve content `"Hello"`.  No fragment's *whole payload* is a
marker, so the side-table stays empty, and `searchForNewsDataInObject`
returns the news *array* (whose `description` is `undefined`), so the
returned record for id `"7"` has content `""` and title `"No Title"`. -/
theorem newsDetail_exact_input_content_empty :
    ((parseNewsDetailFromHtml c1Html "7" ⟨2025, 1, 1, 0, 0, 0⟩).map
        fun d => (d.id, d.title, d.content))
      = some (.str "7", .str "No Title", .str "") ∧
    ((parseNewsDetailFromHtml c1Html "7" ⟨2025, 1, 1, 0, 0, 0⟩).map
        fun d => d.content) ≠ some (.str "Hello") := by
  constructor
  · decide
  · decide

/-- The amended input: the same news fragment, then the reference marker as
its own fragment `[1,"9:T5,"]`, then the content fragment `[1,"Hello"]`. -/
def c1AmendedHtml : String :=
  "<script>self.__next_f.push([1,\"5:[[\\\"$\\\",\\\"$L1\\\",null,\x7b\\\"news\\\":[\x7b\\\"id\\\":\\\"7\\\",\\\"title\\\":\\\"A\\\",\\\"description\\\":\\\"see 9:T5,\\\"\x7d]\x7d]]\"])</script><script>self.__next_f.push([1,\"9:T5,\"])</script><script>self.__next_f.push([1,\"Hello\"])</script>"

set_option maxRecDepth 10000 in
/-- Claim C1 as amended: with the marker delivered as its own fragment
`[1,"9:T5,"]` and its content `"Hello"` in the following fragment, the
extractor resolves content `"Hello"` for news id `"7"` (through the
side-table; the found news value is the array shape, so the first side-table
entry is used). -/
theorem newsDetail_marker_resolution :
    ((parseNewsDetailFromHtml c1AmendedHtml "7" ⟨2025, 1, 1, 0, 0, 0⟩).map
        fun d => (d.id, d.content))
      = some (.str "7", .str "Hello") := by
  decide

/-! ## News normalization (`transformNewsToAnnouncements`) -/

/-- A normalized announcement.  Loosely-typed fields keep their upstream JSON
values; `extras` holds the properties the source's final spread preserves
(every upstream key outside the spread's exclusion list).  The spread also
overwrites `menuName`/`isImportant`/`isUnread`/`targetAudience` with the raw
upstream values, which the corresponding fields reflect. -/
structure NLobbyAnnouncement where
  id : String
  title : Json
  content : Json
  publishedAt : Option DateTime
  category : Json
  priority : String
  targetAudience : Json
  url : String
  menuName : Option Json
  isImportant : Option Json
  isUnread : Option Json
  extras : List (String × Json)
deriving DecidableEq

/-- The body of `transformNewsToAnnouncements`' map for one item at its
array position. -/
def transformNewsItem (now : DateTime) (index : Nat) (item : Json) : NLobbyAnnouncement :=
  let publishedDate : Option DateTime :=
    if jsTruthy? (item.get? "publishedAt") then jsDateOfJson ((item.get? "publishedAt").getD .null)
    else if jsTruthy? (item.get? "createdAt") then jsDateOfJson ((item.get? "createdAt").getD .null)
    else if jsTruthy? (item.get? "updatedAt") then jsDateOfJson ((item.get? "updatedAt").getD .null)
    else if jsTruthy? (item.get? "date") then jsDateOfJson ((item.get? "date").getD .null)
    else some now
  let title := jsOr (item.get? "title") (jsOr (item.get? "name") (jsOr (item.get? "subject")
    (jsOr (item.get? "heading") (.str ("News Item " ++ toString (index + 1))))))
  let content := jsOr (item.get? "content") (jsOr (item.get? "description")
    (jsOr (item.get? "body") (jsOr (item.get? "text") (jsOr (item.get? "summary") (.str "")))))
  let category := jsOr (item.get? "category") (jsOr (item.get? "menuName")
    (jsOr (item.get? "type") (jsOr (item.get? "classification") (.str "General"))))
  let priority :=
    if item.get? "isImportant" = some (.bool true) ∨ item.get? "important" = some (.bool true) ∨
        item.get? "priority" = some (.str "high") ∨ item.get? "urgent" = some (.bool true) then
      "high"
    else if item.get? "priority" = some (.str "low") ∨ item.get? "minor" = some (.bool true) then
      "low"
    else "medium"
  let urlId :=
    match item.get? "id" with
    | some v => if v.truthy then v.jsToString else toString index
    | none => toString index
  let idStr :=
    match item.get? "id" with
    | some .null => toString index
    | some v => if v.jsToString = "" then toString index else v.jsToString
    | none => toString index
  { id := idStr
    title := title
    content := content
    publishedAt := publishedDate
    category := category
    priority := priority
    targetAudience := (item.get? "targetAudience").getD (.arr [.str "student"])
    url := baseUrl ++ "/news/" ++ urlId
    menuName := item.get? "menuName"
    isImportant := item.get? "isImportant"
    isUnread := item.get? "isUnread"
    extras :=
      match item with
      | .obj kvs =>
          kvs.filter fun kv =>
            !(["id", "title", "content", "publishedAt", "category", "priority",
               "url"].contains kv.1)
      | _ => [] }

/-- `newsData.map((item, index) => ...)`, index made explicit. -/
def transformFrom (now : DateTime) : Nat → List Json → List NLobbyAnnouncement
  | _, [] => []
  | index, item :: rest => transformNewsItem now index item :: transformFrom now (index + 1) rest

def transformNewsToAnnouncements (now : DateTime) (newsData : List Json) :
    List NLobbyAnnouncement :=
  transformFrom now 0 newsData

theorem natToString_ne_empty (n : Nat) : toString n ≠ "" := by
  intro h
  have hl : Nat.toDigits 10 n = [] := by
    have h2 := congrArg String.data h
    simpa [toString, Nat.repr, List.asString] using h2
  unfold Nat.toDigits at hl
  rw [Nat.toDigitsCore] at hl
  by_cases h10 : n / 10 = 0
  · simp [h10] at hl
  · simp only [h10, if_false] at hl
    have hlen := Nat.toDigitsCore_lens_eq 10 n (n / 10) (Nat.digitChar (n % 10)) []
    rw [hl] at hlen
    simp at hlen

theorem transformNewsItem_id_ne_empty (now : DateTime) (index : Nat) (item : Json) :
    (transformNewsItem now index item).id ≠ "" := by
  unfold transformNewsItem
  simp only
  match hid : item.get? "id" with
  | none => exact natToString_ne_empty index
  | some .null => exact natToString_ne_empty index
  | some (.bool b) | some (.num n) | some (.str s) | some (.arr l) | some (.obj kvs) =>
      simp only
      split
      · exact natToString_ne_empty index
      · assumption

theorem transformNewsItem_url_shape (now : DateTime) (index : Nat) (item : Json) :
    ∃ suffix, (transformNewsItem now index item).url = baseUrl ++ "/news/" ++ suffix :=
  ⟨_, rfl⟩

/-- When the upstream `id` is absent, `null`, or a non-empty string, the two
computations `item.id?.toString() || index` (the `id` field) and
`item.id || index` (the url segment) agree. -/
theorem transformNewsItem_url_of_goodId (now : DateTime) (index : Nat) (item : Json)
    (h : item.get? "id" = none ∨ item.get? "id" = some .null ∨
      ∃ s, item.get? "id" = some (.str s) ∧ s ≠ "") :
    (transformNewsItem now index item).url
      = baseUrl ++ "/news/" ++ (transformNewsItem now index item).id := by
  unfold transformNewsItem
  simp only
  rcases h with h | h | ⟨s, h, hs⟩
  · rw [h]
  · rw [h]
    simp [Json.truthy]
  · rw [h]
    simp [Json.truthy, Json.jsToString, hs]

theorem transformFrom_mem (now : DateTime) (idx : Nat) (items : List Json)
    (a : NLobbyAnnouncement) (ha : a ∈ transformFrom now idx items) :
    ∃ i item, item ∈ items ∧ a = transformNewsItem now i item := by
  induction items generalizing idx with
  | nil => cases ha
  | cons item rest ih =>
      rcases List.mem_cons.mp ha with h | h
      · exact ⟨idx, item, List.mem_cons_self item rest, h⟩
      · obtain ⟨i, item', hmem, heq⟩ := ih (idx + 1) h
        exact ⟨i, item', List.mem_cons_of_mem item hmem, heq⟩

/-! ## DOM model and the Cheerio grid parser (`parseAnnouncementsWithCheerio`) -/

/-- Modelled: the DOM as Cheerio exposes it — element nodes carrying a tag
name, an ordered attribute list and ordered children, plus text nodes.
`cheerio.load` itself is a third-party HTML parser that is not part of this
repository. -/
inductive Dom where
  | elem (tag : String) (attrs : List (String × String)) (children : List Dom)
  | text (s : String)

def Dom.attr? (name : String) : Dom → Option String
  | .elem _ attrs _ => (attrs.find? (fun kv => kv.1 == name)).map (fun kv => kv.2)
  | .text _ => none

def Dom.isElem : Dom → Bool
  | .elem _ _ _ => true
  | .text _ => false

/-- Tag selector, e.g. `a` or `span`. -/
def Dom.isTag (tag : String) : Dom → Bool
  | .elem t _ _ => t == tag
  | .text _ => false

/-- Attribute selector `tag[name="val"]`, e.g. `div[role="row"]`. -/
def Dom.isElemWith (tag nm val : String) : Dom → Bool
  | .elem t attrs _ =>
      t == tag && ((attrs.find? (fun kv => kv.1 == nm)).map (fun kv => kv.2) == some val)
  | .text _ => false

mutual

/-- `.text()` of one node: the concatenated text of its subtree. -/
def Dom.textContent : Dom → String
  | .text s => s
  | .elem _ _ children => Dom.textList children

def Dom.textList : List Dom → String
  | [] => ""
  | d :: rest => Dom.textContent d ++ Dom.textList rest

end

mutual

/-- All nodes strictly below a node, in document (preorder) order —
the search space of Cheerio's `.find()`. -/
def Dom.descendants : Dom → List Dom
  | .text _ => []
  | .elem _ _ children => Dom.descList children

def Dom.descList : List Dom → List Dom
  | [] => []
  | d :: rest => d :: (Dom.descendants d ++ Dom.descList rest)

end

/-- `$el.find(sel)`: matching descendants of one element. -/
def findAll (pred : Dom → Bool) (d : Dom) : List Dom :=
  d.descendants.filter pred

/-- `.find(sel)` over a selection of several elements. -/
def findAllIn (pred : Dom → Bool) (ds : List Dom) : List Dom :=
  ds.flatMap (findAll pred)

/-- `.text()` over a selection: the texts of all selected nodes, concatenated. -/
def selText (ds : List Dom) : String :=
  (ds.map Dom.textContent).foldl (fun a b => a ++ b) ""

/-- Modelled: `new Date(dateText.replace(/\//g, "-"))` on the DataGrid's
date text, whose format the source documents as `2025/07/13 09:00`; after
the replacement this parser accepts exactly that `YYYY-MM-DD HH:MM` shape
(seconds zero) and yields an Invalid Date (`none`) otherwise. -/
def parseGridDate (s : String) : Option DateTime :=
  match s.data with
  | [y1, y2, y3, y4, '-', mo1, mo2, '-', d1, d2, ' ', h1, h2, ':', mi1, mi2] =>
      match digit? y1, digit? y2, digit? y3, digit? y4, digit? mo1, digit? mo2,
        digit? d1, digit? d2, digit? h1, digit? h2, digit? mi1, digit? mi2 with
      | some a1, some a2, some a3, some a4, some b1, some b2, some c1, some c2,
        some e1, some e2, some f1, some f2 =>
          let year := ((a1 * 10 + a2) * 10 + a3) * 10 + a4
          let month := b1 * 10 + b2
          let day := c1 * 10 + c2
          let hour := e1 * 10 + e2
          let minute := f1 * 10 + f2
          if 1 ≤ month ∧ month ≤ 12 ∧ 1 ≤ day ∧ day ≤ daysInMonth year month ∧
              hour < 24 ∧ minute < 60 then
            some ⟨year, month, day, hour, minute, 0⟩
          else none
      | _, _, _, _, _, _, _, _, _, _, _, _ => none
  | _ => none

/-- The mutable row-local variables of the `rows.each` body. -/
structure RowState where
  title : String
  category : String
  publishedAt : DateTime
  isImportant : Bool
  isUnread : Bool
  url : String
deriving DecidableEq

/-- The `url` computed in the `title` gridcell branch when a link exists:
`link.attr("href")` startsWith `"/news/"` keeps the href, else falls back
to `/news/rowId`. -/
def titleCellUrl (rowId : String) (link : Dom) : String :=
  match Dom.attr? "href" link with
  | some href =>
      if href != "" && ("/news/").data.isPrefixOf href.data then baseUrl ++ href
      else baseUrl ++ "/news/" ++ rowId
  | none => baseUrl ++ "/news/" ++ rowId

/-- The `title` computed when a link exists: the trimmed span text if the
links contain a span, else the trimmed link text. -/
def titleCellTitle (links : List Dom) : String :=
  match findAllIn (Dom.isTag "span") links with
  | [] => jsTrim (selText links)
  | sp :: rest => jsTrim (selText (sp :: rest))

/-- One iteration of the `cells.each` switch on `data-field`. -/
def stepCell (rowId : String) (st : RowState) (cell : Dom) : RowState :=
  match Dom.attr? "data-field" cell with
  | some "title" =>
      match findAll (Dom.isTag "a") cell with
      | link :: rest =>
          { st with title := titleCellTitle (link :: rest),
                    url := titleCellUrl rowId link }
      | [] =>
          { st with title := jsTrim cell.textContent,
                    url := baseUrl ++ "/news/" ++ rowId }
  | some "menuName" => { st with category := jsTrim cell.textContent }
  | some "isImportant" =>
      { st with isImportant :=
          (jsTrim cell.textContent).length != 0 ||
            (cell.descendants.filter Dom.isElem).length != 0 }
  | some "isUnread" =>
      let unreadText := jsTrim cell.textContent
      { st with isUnread := strIncludes unreadText "未読" || unreadText.length != 0 }
  | some "publishedAt" =>
      let dateText := jsTrim cell.textContent
      if dateText ≠ "" then
        match parseGridDate ⟨dateText.data.map (fun c => if c = '/' then '-' else c)⟩ with
        | some d => { st with publishedAt := d }
        | none => st
      else st
  | _ => st

/-- The announcement built from a finished row: the `url ||` fallback and
the `category || "General"` fallback applied to the folded row state. -/
def rowAnnouncement (rowId : String) (st : RowState) : NLobbyAnnouncement :=
  { id := rowId,
    title := .str st.title,
    content := .str "",
    publishedAt := some st.publishedAt,
    category := .str (if st.category = "" then "General" else st.category),
    priority := if st.isImportant then "high" else "medium",
    targetAudience := .arr [.str "student"],
    url := if st.url = "" then baseUrl ++ "/news/" ++ rowId else st.url,
    menuName := some (.str st.category),
    isImportant := some (.bool st.isImportant),
    isUnread := some (.bool st.isUnread),
    extras := [] }

/-- One iteration of `rows.each`: skip rows without a truthy `data-id`,
fold the gridcells, and append an announcement when the title is truthy. -/
def processRow (now : DateTime) (acc : List NLobbyAnnouncement) (row : Dom) :
    List NLobbyAnnouncement :=
  match Dom.attr? "data-id" row with
  | none => acc
  | some rowId =>
      if rowId = "" then acc
      else
        let cells := findAll (Dom.isElemWith "div" "role" "gridcell") row
        let st := cells.foldl (stepCell rowId) ⟨"", "", now, false, false, ""⟩
        if st.title = "" then acc
        else acc ++ [rowAnnouncement rowId st]

/-- Require at least two `div[role="presentation"]` elements and walk the
`div[role="row"]` descendants of the second one. -/
def cheerioFromPresentation (now : DateTime) : List Dom → List NLobbyAnnouncement
  | _ :: second :: _ =>
      (findAll (Dom.isElemWith "div" "role" "row") second).foldl (processRow now) []
  | _ => []

/-- `parseAnnouncementsWithCheerio`, over the already-loaded DOM: take the
second `div[role="presentation"]`, walk its `div[role="row"]` descendants. -/
def parseAnnouncementsWithCheerioDom (now : DateTime) (doc : Dom) :
    List NLobbyAnnouncement :=
  cheerioFromPresentation now
    ((doc :: doc.descendants).filter (Dom.isElemWith "div" "role" "presentation"))

/-- A well-formed announcement: non-empty id and a `/news/`-shaped url
under the configured base. -/
def AnnOk (a : NLobbyAnnouncement) : Prop :=
  a.id ≠ "" ∧ ∃ s, a.url = baseUrl ++ "/news/" ++ s

theorem titleUrl_shape (rowId : String) (link : Dom) :
    ∃ s, titleCellUrl rowId link = baseUrl ++ "/news/" ++ s := by
  unfold titleCellUrl
  match hm : Dom.attr? "href" link with
  | none => exact ⟨rowId, rfl⟩
  | some href =>
      dsimp only
      by_cases hc : (href != "" && ("/news/").data.isPrefixOf href.data) = true
      · rw [if_pos hc]
        have hp : ("/news/").data.isPrefixOf href.data = true :=
          ((Bool.and_eq_true _ _).mp hc).2
        obtain ⟨t, ht⟩ := List.isPrefixOf_iff_prefix.mp hp
        refine ⟨⟨t⟩, ?_⟩
        apply String.ext
        simp [String.data_append, ← ht]
      · rw [if_neg hc]
        exact ⟨rowId, rfl⟩

theorem stepCell_url (rowId : String) (st : RowState) (cell : Dom)
    (h : st.url = "" ∨ ∃ s, st.url = baseUrl ++ "/news/" ++ s) :
    (stepCell rowId st cell).url = "" ∨
      ∃ s, (stepCell rowId st cell).url = baseUrl ++ "/news/" ++ s := by
  unfold stepCell
  split
  · split
    · exact Or.inr (titleUrl_shape rowId _)
    · exact Or.inr ⟨rowId, rfl⟩
  · exact h
  · exact h
  · exact h
  · dsimp only
    split
    · split
      · exact h
      · exact h
    · exact h
  · exact h

theorem foldl_stepCell_url (rowId : String) (cells : List Dom) (st : RowState)
    (h : st.url = "" ∨ ∃ s, st.url = baseUrl ++ "/news/" ++ s) :
    (cells.foldl (stepCell rowId) st).url = "" ∨
      ∃ s, (cells.foldl (stepCell rowId) st).url = baseUrl ++ "/news/" ++ s := by
  induction cells generalizing st with
  | nil => exact h
  | cons c rest ih => exact ih _ (stepCell_url rowId st c h)

theorem rowAnnouncement_ok (rowId : String) (st : RowState) (hid : rowId ≠ "")
    (h : st.url = "" ∨ ∃ s, st.url = baseUrl ++ "/news/" ++ s) :
    AnnOk (rowAnnouncement rowId st) := by
  refine ⟨hid, ?_⟩
  show (∃ s, (if st.url = "" then baseUrl ++ "/news/" ++ rowId else st.url)
    = baseUrl ++ "/news/" ++ s)
  by_cases h0 : st.url = ""
  · exact ⟨rowId, if_pos h0⟩
  · rcases h with h | ⟨s, hs⟩
    · exact absurd h h0
    · exact ⟨s, by rw [if_neg h0]; exact hs⟩

theorem processRow_ok (now : DateTime) (acc : List NLobbyAnnouncement) (row : Dom)
    (h : ∀ a ∈ acc, AnnOk a) : ∀ a ∈ processRow now acc row, AnnOk a := by
  match hr : Dom.attr? "data-id" row with
  | none => simpa only [processRow, hr] using h
  | some rowId =>
      by_cases hid : rowId = ""
      · simpa only [processRow, hr, if_pos hid] using h
      · simp only [processRow, hr, if_neg hid]
        split
        · exact h
        · intro a ha
          rcases List.mem_append.mp ha with ha | ha
          · exact h a ha
          · have ha' := List.mem_singleton.mp ha
            subst ha'
            exact rowAnnouncement_ok rowId _ hid
              (foldl_stepCell_url rowId
                (findAll (Dom.isElemWith "div" "role" "gridcell") row)
                ⟨"", "", now, false, false, ""⟩ (Or.inl rfl))

theorem foldl_processRow_ok (now : DateTime) (rows : List Dom)
    (acc : List NLobbyAnnouncement) (h : ∀ a ∈ acc, AnnOk a) :
    ∀ a ∈ rows.foldl (processRow now) acc, AnnOk a := by
  induction rows generalizing acc with
  | nil => exact h
  | cons r rest ih => exact ih _ (processRow_ok now acc r h)

theorem cheerioFromPresentation_ok (now : DateTime) (l : List Dom) :
    ∀ a ∈ cheerioFromPresentation now l, AnnOk a := by
  match l with
  | [] => intro a ha; exact absurd ha (List.not_mem_nil a)
  | [x] => intro a ha; exact absurd ha (List.not_mem_nil a)
  | _ :: second :: _ =>
      exact foldl_processRow_ok now _ []
        (fun a ha => absurd ha (List.not_mem_nil a))

theorem cheerio_ann_ok (now : DateTime) (doc : Dom) :
    ∀ a ∈ parseAnnouncementsWithCheerioDom now doc, AnnOk a :=
  cheerioFromPresentation_ok now _

def c9Now : DateTime := ⟨2025, 7, 13, 9, 0, 0⟩

def c9Items : List Json :=
  [.obj [("id", .str "42"), ("title", .str "A")],
   .obj [("id", .num 0), ("title", .str "B")]]

/-- C9 counterexample: an upstream record whose `id` is the number `0`
(at array position 1) yields `id = "0"` — `item.id?.toString()` is `"0"`,
which is truthy — but `url = baseUrl ++ "/news/1"`, because the url is
built from `item.id || index` and the number `0` is falsy.  So the
produced url is not `baseUrl ++ "/news/" ++ id`. -/
theorem announcement_id_url_mismatch :
    ((transformNewsToAnnouncements c9Now c9Items).map (fun a => (a.id, a.url)))
      = [("42", "https://nlobby.nnn.ed.jp/news/42"),
         ("0", "https://nlobby.nnn.ed.jp/news/1")] ∧
    ¬ (∀ a ∈ transformNewsToAnnouncements c9Now c9Items,
        a.url = baseUrl ++ "/news/" ++ a.id) := by
  constructor
  · rfl
  · decide

/-- C9: every announcement the normalizer produces has a non-empty `id`
(the upstream id's string form when truthy, else the array position) and a
url of the shape `baseUrl ++ "/news/" ++ suffix`; when the upstream `id`
is absent, `null`, or a non-empty string, the suffix is exactly the `id`
field.  The same id/url shape holds for every announcement the Cheerio
DOM path produces. -/
theorem announcement_id_url_invariant :
    (∀ now items, ∀ a ∈ transformNewsToAnnouncements now items,
        a.id ≠ "" ∧ ∃ s, a.url = baseUrl ++ "/news/" ++ s) ∧
    (∀ (now : DateTime) (index : Nat) (item : Json),
        (item.get? "id" = none ∨ item.get? "id" = some .null ∨
          ∃ s, item.get? "id" = some (.str s) ∧ s ≠ "") →
        (transformNewsItem now index item).url
          = baseUrl ++ "/news/" ++ (transformNewsItem now index item).id) ∧
    (∀ now doc, ∀ a ∈ parseAnnouncementsWithCheerioDom now doc,
        a.id ≠ "" ∧ ∃ s, a.url = baseUrl ++ "/news/" ++ s) := by
  refine ⟨?_, ?_, ?_⟩
  · intro now items a ha
    obtain ⟨i, item, _, rfl⟩ := transformFrom_mem now 0 items a ha
    exact ⟨transformNewsItem_id_ne_empty now i item,
      transformNewsItem_url_shape now i item⟩
  · intro now index item h
    exact transformNewsItem_url_of_goodId now index item h
  · intro now doc a ha
    exact cheerio_ann_ok now doc a ha

def c9wItem : Json := .obj [("title", .str "A")]

def c9wAnn : NLobbyAnnouncement := transformNewsItem c9Now 0 c9wItem

def c9wDoc : Dom :=
  .elem "body" [] [
    .elem "div" [("role", "presentation")] [],
    .elem "div" [("role", "presentation")] [
      .elem "div" [("role", "row"), ("data-id", "5")] [
        .elem "div" [("role", "gridcell"), ("data-field", "title")] [.text "Hello"]]]]

def c9wCheerioAnn : NLobbyAnnouncement :=
  { id := "5",
    title := .str "Hello",
    content := .str "",
    publishedAt := some c9Now,
    category := .str "General",
    priority := "medium",
    targetAudience := .arr [.str "student"],
    url := "https://nlobby.nnn.ed.jp/news/5",
    menuName := some (.str ""),
    isImportant := some (.bool false),
    isUnread := some (.bool false),
    extras := [] }

theorem announcement_id_url_invariant_witness :
    (c9wAnn ∈ transformNewsToAnnouncements c9Now [c9wItem] ∧
      c9wAnn.id ≠ "" ∧ ∃ s, c9wAnn.url = baseUrl ++ "/news/" ++ s) ∧
    ((Json.get? c9wItem "id" = none ∨ Json.get? c9wItem "id" = some .null ∨
        ∃ s, Json.get? c9wItem "id" = some (.str s) ∧ s ≠ "") ∧
      (transformNewsItem c9Now 0 c9wItem).url
        = baseUrl ++ "/news/" ++ (transformNewsItem c9Now 0 c9wItem).id) ∧
    (c9wCheerioAnn ∈ parseAnnouncementsWithCheerioDom c9Now c9wDoc ∧
      c9wCheerioAnn.id ≠ "" ∧ ∃ s, c9wCheerioAnn.url = baseUrl ++ "/news/" ++ s) :=
  ⟨⟨by decide, announcement_id_url_invariant.1 c9Now [c9wItem] c9wAnn (by decide)⟩,
   ⟨Or.inl (by decide),
    announcement_id_url_invariant.2.1 c9Now 0 c9wItem (Or.inl (by decide))⟩,
   ⟨by decide, announcement_id_url_invariant.2.2 c9Now c9wDoc c9wCheerioAnn (by decide)⟩⟩

/-! ## News extraction from a page (`parseNewsFromHtml`) -/

/-- `prop in obj`: key presence in an object (value may be anything,
`null` and `undefined` included). -/
def Json.hasKey (j : Json) (k : String) : Bool :=
  match j with
  | .obj kvs => kvs.any (fun kv => kv.1 == k)
  | _ => false

def newsProperties : List String :=
  ["title", "name", "content", "publishedAt", "menuName", "createdAt", "updatedAt", "id"]

mutual

/-- `searchForNewsInData`: a non-empty array whose first element is a truthy
object carrying at least one news-like property is returned whole (other
arrays give `[]`, without recursing into their elements); a non-array object
is searched recursively through its property values, concatenating all
found arrays. -/
def searchForNewsInData : Json → List Json
  | .arr elems =>
      match elems with
      | [] => []
      | first :: rest =>
          if first.isTruthyObject && newsProperties.any (fun p => first.hasKey p) then
            first :: rest
          else []
  | .obj kvs => searchNewsInEntries kvs
  | _ => []

def searchNewsInEntries : List (String × Json) → List Json
  | [] => []
  | (_, v) :: rest => searchForNewsInData v ++ searchNewsInEntries rest

end

/-- The `item[3]`-component check of the streamed-fragment strategy: an
array of length ≥ 4 whose fourth entry is a truthy object with an array
`news` property whose first element is a truthy object with a truthy
`id`/`title`/`microCmsId`. -/
def checkComponentItem (item : Json) : Option (List Json) :=
  match item with
  | .arr l =>
      if l.length ≥ 4 then
        match l.get? 3 with
        | some cd =>
            if cd.isTruthyObject then
              match cd.get? "news" with
              | some (.arr news) =>
                  match news with
                  | [] => none
                  | first :: rest =>
                      if first.isTruthyObject &&
                          (jsTruthy? (first.get? "id") || jsTruthy? (first.get? "title") ||
                            jsTruthy? (first.get? "microCmsId")) then
                        some (first :: rest)
                      else none
              | _ => none
            else none
        | none => none
      else none
  | _ => none

def scanComponentItems : List Json → Option (List Json)
  | [] => none
  | item :: rest =>
      match checkComponentItem item with
      | some news => some news
      | none => scanComponentItems rest

/-- One `self.__next_f.push` capture of the streamed-fragment strategy: a
parse failure aborts the whole iteration (its `catch` skips the direct
search too); a prefixed payload string is parsed and scanned for a
component-data `news` array, an unprefixed one is parsed and searched
directly; in either case failure falls back to searching the push array
itself. -/
def pushCallNews (s : String) : Option (List Json) :=
  match jsonParse s with
  | none => none
  | some pushData =>
      let viaString : Option (List Json) :=
        match pushData with
        | .arr elems =>
            if elems.length ≥ 2 then
              match elems.get? 1 with
              | some (.str sd) =>
                  match prefixSplit sd with
                  | some (_, actualJsonString) =>
                      match jsonParse actualJsonString with
                      | some (.arr items) => scanComponentItems items
                      | _ => none
                  | none =>
                      match jsonParse sd with
                      | none => none
                      | some inner =>
                          match searchForNewsInData inner with
                          | [] => none
                          | f :: fs => some (f :: fs)
              | _ => none
            else none
        | _ => none
      match viaString with
      | some news => some news
      | none =>
          match searchForNewsInData pushData with
          | [] => none
          | f :: fs => some (f :: fs)

def strategy1From : List (List Char) → Option (List Json)
  | [] => none
  | cap :: rest =>
      match pushCallNews ⟨cap⟩ with
      | some news => some news
      | none => strategy1From rest

/-- Priority 1: the first `self.__next_f.push()` capture that yields a news
array. -/
def strategy1 (html : String) : Option (List Json) :=
  strategy1From (extractPushCalls (html.data.length + 1) html.data)

/-- Generic one-match regex scan: try an anchored matcher at every position,
left to right, and return its first capture. -/
def scanFirst (tryAt : List Char → Option String) : Nat → List Char → Option String
  | 0, _ => none
  | _ + 1, [] => none
  | fuel + 1, c :: r =>
      match tryAt (c :: r) with
      | some cap => some cap
      | none => scanFirst tryAt fuel r

/-- Generic global regex scan: collect every capture, resuming after each
match. -/
def scanAllCaps (tryAt : List Char → Option (String × List Char)) :
    Nat → List Char → List String
  | 0, _ => []
  | _ + 1, [] => []
  | fuel + 1, c :: r =>
      match tryAt (c :: r) with
      | some (cap, rest) => cap :: scanAllCaps tryAt fuel rest
      | none => scanAllCaps tryAt fuel r

/-- The suffix after the first occurrence of `pat`. -/
def dropAfterInfix (pat : List Char) : Nat → List Char → Option (List Char)
  | 0, _ => none
  | _ + 1, [] => if pat = [] then some [] else none
  | fuel + 1, c :: r =>
      if pat.isPrefixOf (c :: r) then some ((c :: r).drop pat.length)
      else dropAfterInfix pat fuel r

/-- Follow-set `\s*(?:;|<\/script>)` of the first `__NEXT_DATA__` pattern. -/
def followOk1 (r : List Char) : Bool :=
  let r1 := r.dropWhile jsIsWhitespace
  (r1.head? == some ';') || ("</script>").data.isPrefixOf r1

/-- Follow-set `(?:;|\s*<\/script>)` of the third `__NEXT_DATA__` pattern. -/
def followOk3 (r : List Char) : Bool :=
  (r.head? == some ';') || ("</script>").data.isPrefixOf (r.dropWhile jsIsWhitespace)

/-- The lazy `{.*?}` body (with `/s`, so newlines are allowed): the shortest
stretch ending at a `\x7d` whose follow-set matches. -/
def scanBraceLazy (follow : List Char → Bool) : Nat → List Char → Option (List Char)
  | 0, _ => none
  | _ + 1, [] => none
  | fuel + 1, c :: rest =>
      if c = '}' ∧ follow rest = true then some []
      else (scanBraceLazy follow fuel rest).map (fun p => c :: p)

/-- Anchored matcher for `marker\s*=\s*({.*?})` + follow-set. -/
def tryNextDataAt (marker : List Char) (follow : List Char → Bool) (l : List Char) :
    Option String :=
  if marker.isPrefixOf l then
    match (l.drop marker.length).dropWhile jsIsWhitespace with
    | '=' :: l2 =>
        match l2.dropWhile jsIsWhitespace with
        | '{' :: body =>
            (scanBraceLazy follow (body.length + 1) body).map
              (fun b => "\x7b" ++ (⟨b⟩ : String) ++ "\x7d")
        | _ => none
    | _ => none
  else none

/-- Anchored matcher for `<script id="__NEXT_DATA__"[^>]*>([^<]*)<\/script>`. -/
def tryScriptNextDataAt (l : List Char) : Option String :=
  if ("<script id=\"__NEXT_DATA__\"").data.isPrefixOf l then
    let after := l.drop ("<script id=\"__NEXT_DATA__\"").data.length
    let inTag := after.takeWhile (fun c => c ≠ '>')
    match after.drop inTag.length with
    | '>' :: rest =>
        let body := rest.takeWhile (fun c => c ≠ '<')
        if ("</script>").data.isPrefixOf (rest.drop body.length) then some ⟨body⟩
        else none
    | _ => none
  else none

/-- One `__NEXT_DATA__` candidate: parse the captured JSON and search it.
(`match[1] || match[0]` only falls back on an empty capture, whose parse
fails exactly as the empty string's does.) -/
def s2Try (cap : Option String) : Option (List Json) :=
  match cap with
  | none => none
  | some s =>
      match jsonParse s with
      | none => none
      | some j =>
          match searchForNewsInData j with
          | [] => none
          | f :: fs => some (f :: fs)

/-- Priority 2: the three `__NEXT_DATA__` patterns, in order. -/
def strategy2 (html : String) : Option (List Json) :=
  match s2Try (scanFirst (tryNextDataAt ("window.__NEXT_DATA__").data followOk1)
      (html.data.length + 1) html.data) with
  | some f => some f
  | none =>
      match s2Try (scanFirst tryScriptNextDataAt (html.data.length + 1) html.data) with
      | some f => some f
      | none =>
          s2Try (scanFirst (tryNextDataAt ("__NEXT_DATA__").data followOk3)
            (html.data.length + 1) html.data)

/-- Anchored matcher for `"key":\s*(\[.*?\])` (no `/s`: a line terminator
before the first `]` kills the match). -/
def tryKeyArrayAt (marker : List Char) (l : List Char) : Option (String × List Char) :=
  if marker.isPrefixOf l then
    match (l.drop marker.length).dropWhile jsIsWhitespace with
    | '[' :: body =>
        let b := body.takeWhile (fun c => c ≠ ']' ∧ c ≠ '\n' ∧ c ≠ '\r')
        match body.drop b.length with
        | ']' :: rest => some ("[" ++ (⟨b⟩ : String) ++ "]", rest)
        | _ => none
    | _ => none
  else none

/-- React-component candidates: each captured array is parsed, and a
non-empty parse is searched for a news-shaped array. -/
def s3Process : List String → Option (List Json)
  | [] => none
  | cap :: rest =>
      match jsonParse cap with
      | some (.arr items) =>
          if items.length > 0 then
            match searchForNewsInData (.arr items) with
            | [] => s3Process rest
            | f :: fs => some (f :: fs)
          else s3Process rest
      | _ => s3Process rest

/-- Priority 3: inline React component data under the keys `news`,
`announcements`, `items`, `data`, in that order. -/
def strategy3 (html : String) : Option (List Json) :=
  match s3Process (scanAllCaps (tryKeyArrayAt ("\"news\":").data)
      (html.data.length + 1) html.data) with
  | some f => some f
  | none =>
      match s3Process (scanAllCaps (tryKeyArrayAt ("\"announcements\":").data)
          (html.data.length + 1) html.data) with
      | some f => some f
      | none =>
          match s3Process (scanAllCaps (tryKeyArrayAt ("\"items\":").data)
              (html.data.length + 1) html.data) with
          | some f => some f
          | none =>
              s3Process (scanAllCaps (tryKeyArrayAt ("\"data\":").data)
                (html.data.length + 1) html.data)

/-- Anchored matcher for `data-xxx="([^"]*)">`. -/
def tryAttrAt (marker : List Char) (l : List Char) : Option (String × List Char) :=
  if marker.isPrefixOf l then
    let after := l.drop marker.length
    let v := after.takeWhile (fun c => c ≠ '"')
    match after.drop v.length with
    | '"' :: '>' :: rest => some (⟨v⟩, rest)
    | _ => none
  else none

/-- Anchored matcher for `<script[^>]*>.*?(\[.*?\]).*?<\/script>` (`/gs`):
the first bracketed stretch inside a script tag, provided a `</script>`
follows; the scan resumes after that closing tag. -/
def tryScriptArrAt (l : List Char) : Option (String × List Char) :=
  if ("<script").data.isPrefixOf l then
    let after := l.drop 7
    let inTag := after.takeWhile (fun c => c ≠ '>')
    match after.drop inTag.length with
    | '>' :: rest =>
        let pre := rest.takeWhile (fun c => c ≠ '[')
        match rest.drop pre.length with
        | '[' :: body =>
            let b := body.takeWhile (fun c => c ≠ ']')
            match body.drop b.length with
            | ']' :: tail =>
                match dropAfterInfix ("</script>").data (tail.length + 1) tail with
                | some rest2 => some ("[" ++ (⟨b⟩ : String) ++ "]", rest2)
                | none => none
            | _ => none
        | _ => none
    | _ => none
  else none

/-- `&quot;`/`&amp;`/`&lt;`/`&gt;` unescaping of the simple-pattern strategy. -/
def decodeEntities (s : String) : String :=
  let r1 := replaceAll ("&quot;").data ("\"").data (s.data.length + 1) s.data
  let r2 := replaceAll ("&amp;").data ("&").data (r1.length + 1) r1
  let r3 := replaceAll ("&lt;").data ("<").data (r2.length + 1) r2
  let r4 := replaceAll ("&gt;").data (">").data (r3.length + 1) r3
  ⟨r4⟩

/-- Simple-pattern candidates: entity-decode, parse, and search each
capture. -/
def s4Process : List String → Option (List Json)
  | [] => none
  | cap :: rest =>
      match jsonParse (decodeEntities cap) with
      | some (.arr items) =>
          if items.length > 0 then
            match searchForNewsInData (.arr items) with
            | [] => s4Process rest
            | f :: fs => some (f :: fs)
          else s4Process rest
      | _ => s4Process rest

/-- Priority 4: `data-news=`/`data-items=`/`data-content=` attributes and
bracketed script bodies, in that order. -/
def strategy4 (html : String) : Option (List Json) :=
  match s4Process (scanAllCaps (tryAttrAt ("data-news=\"").data)
      (html.data.length + 1) html.data) with
  | some f => some f
  | none =>
      match s4Process (scanAllCaps (tryAttrAt ("data-items=\"").data)
          (html.data.length + 1) html.data) with
      | some f => some f
      | none =>
          match s4Process (scanAllCaps (tryAttrAt ("data-content=\"").data)
              (html.data.length + 1) html.data) with
          | some f => some f
          | none =>
              s4Process (scanAllCaps tryScriptArrAt (html.data.length + 1) html.data)

/-- Modelled: one step of a plain well-formed-HTML reading of `cheerio.load`
(a third-party parser): attribute lists of a tag, read until `>` or `/>`. -/
def htmlAttrs : Nat → List Char → List (String × String) × List Char × Bool
  | 0, l => ([], l, false)
  | fuel + 1, l =>
      let l1 := l.dropWhile jsIsWhitespace
      match l1 with
      | [] => ([], [], false)
      | '>' :: rest => ([], rest, false)
      | '/' :: '>' :: rest => ([], rest, true)
      | _ =>
          let nm := l1.takeWhile (fun c =>
            c ≠ '=' ∧ c ≠ '>' ∧ c ≠ '/' ∧ jsIsWhitespace c = false)
          if nm = [] then htmlAttrs fuel (l1.drop 1)
          else
            match l1.drop nm.length with
            | '=' :: '"' :: rest2 =>
                let v := rest2.takeWhile (fun c => c ≠ '"')
                let res := htmlAttrs fuel ((rest2.drop v.length).drop 1)
                ((⟨nm⟩, ⟨v⟩) :: res.1, res.2)
            | l2 =>
                let res := htmlAttrs fuel l2
                ((⟨nm⟩, "") :: res.1, res.2)

/-- Skip a matching `</name>`, if present. -/
def dropClose (name : List Char) (l : List Char) : List Char :=
  if ('<' :: '/' :: name ++ ['>']).isPrefixOf l then l.drop (name.length + 3) else l

def isTagNameChar (c : Char) : Bool :=
  ('a' ≤ c && c ≤ 'z') || ('A' ≤ c && c ≤ 'Z') || ('0' ≤ c && c ≤ '9') ||
    c == '-' || c == '!' || c == '#'

/-- Modelled: the node list of a plain well-formed-HTML reading of
`cheerio.load`. -/
def htmlScan : Nat → List Char → List Dom × List Char
  | 0, l => ([], l)
  | _ + 1, [] => ([], [])
  | _ + 1, '<' :: '/' :: rest => ([], '<' :: '/' :: rest)
  | fuel + 1, '<' :: rest =>
      let name := rest.takeWhile isTagNameChar
      let res := htmlAttrs (rest.length + 1) (rest.drop name.length)
      if res.2.2 then
        let sib := htmlScan fuel res.2.1
        (Dom.elem ⟨name⟩ res.1 [] :: sib.1, sib.2)
      else
        let children := htmlScan fuel res.2.1
        let r2 := dropClose name children.2
        let sib := htmlScan fuel r2
        (Dom.elem ⟨name⟩ res.1 children.1 :: sib.1, sib.2)
  | fuel + 1, c :: rest =>
      let txt := (c :: rest).takeWhile (fun x => x ≠ '<')
      let sib := htmlScan fuel ((c :: rest).drop txt.length)
      (Dom.text ⟨txt⟩ :: sib.1, sib.2)

/-- Modelled: `cheerio.load` as a plain well-formed-HTML DOM parser. -/
def htmlToDom (html : String) : Dom :=
  .elem "#document" [] (htmlScan (4 * html.data.length + 16) html.data).1

/-- `parseNewsFromHtml`, with the implicit wall clock (`new Date()`) made
explicit: streamed fragments first, then the Cheerio DOM fallback if it
yields anything, then `__NEXT_DATA__`, React inline data and the simple
patterns, each handing its record array to the normalizer; `[]` if all
fail. -/
def parseNewsFromHtml (html : String) (now : DateTime) : List NLobbyAnnouncement :=
  match strategy1 html with
  | some news => transformNewsToAnnouncements now news
  | none =>
      let cheerioAnnouncements := parseAnnouncementsWithCheerioDom now (htmlToDom html)
      if cheerioAnnouncements.length > 0 then cheerioAnnouncements
      else
        match strategy2 html with
        | some news => transformNewsToAnnouncements now news
        | none =>
            match strategy3 html with
            | some news => transformNewsToAnnouncements now news
            | none =>
                match strategy4 html with
                | some news => transformNewsToAnnouncements now news
                | none => []

/-! ## Determinism of the extraction modulo the wall clock -/

/-- Forget the only clock-dependent field. -/
def erasePublishedAt (a : NLobbyAnnouncement) : NLobbyAnnouncement :=
  { a with publishedAt := none }

theorem erase_transformNewsItem (n1 n2 : DateTime) (i : Nat) (item : Json) :
    erasePublishedAt (transformNewsItem n1 i item)
      = erasePublishedAt (transformNewsItem n2 i item) := rfl

theorem erase_transformFrom (n1 n2 : DateTime) (i : Nat) (items : List Json) :
    (transformFrom n1 i items).map erasePublishedAt
      = (transformFrom n2 i items).map erasePublishedAt := by
  induction items generalizing i with
  | nil => rfl
  | cons item rest ih =>
      simp only [transformFrom, List.map_cons]
      rw [erase_transformNewsItem n1 n2 i item, ih]

theorem erase_transform (n1 n2 : DateTime) (items : List Json) :
    (transformNewsToAnnouncements n1 items).map erasePublishedAt
      = (transformNewsToAnnouncements n2 items).map erasePublishedAt :=
  erase_transformFrom n1 n2 0 items

/-- Row states that agree on everything except the date. -/
def RowStateEq (s t : RowState) : Prop :=
  s.title = t.title ∧ s.category = t.category ∧ s.isImportant = t.isImportant ∧
    s.isUnread = t.isUnread ∧ s.url = t.url

theorem stepCell_congr (rowId : String) (cell : Dom) (s t : RowState)
    (h : RowStateEq s t) :
    RowStateEq (stepCell rowId s cell) (stepCell rowId t cell) := by
  obtain ⟨h1, h2, h3, h4, h5⟩ := h
  unfold stepCell
  split
  · split
    · exact ⟨rfl, h2, h3, h4, rfl⟩
    · exact ⟨rfl, h2, h3, h4, rfl⟩
  · exact ⟨h1, rfl, h3, h4, h5⟩
  · exact ⟨h1, h2, rfl, h4, h5⟩
  · exact ⟨h1, h2, h3, rfl, h5⟩
  · dsimp only
    split
    · split
      · exact ⟨h1, h2, h3, h4, h5⟩
      · exact ⟨h1, h2, h3, h4, h5⟩
    · exact ⟨h1, h2, h3, h4, h5⟩
  · exact ⟨h1, h2, h3, h4, h5⟩

theorem foldl_stepCell_congr (rowId : String) (cells : List Dom) (s t : RowState)
    (h : RowStateEq s t) :
    RowStateEq (cells.foldl (stepCell rowId) s) (cells.foldl (stepCell rowId) t) := by
  induction cells generalizing s t with
  | nil => exact h
  | cons c rest ih => exact ih _ _ (stepCell_congr rowId c s t h)

theorem erase_rowAnnouncement (rowId : String) (s t : RowState) (h : RowStateEq s t) :
    erasePublishedAt (rowAnnouncement rowId s)
      = erasePublishedAt (rowAnnouncement rowId t) := by
  obtain ⟨h1, h2, h3, h4, h5⟩ := h
  unfold rowAnnouncement erasePublishedAt
  rw [h1, h2, h3, h4, h5]

theorem erase_processRow (n1 n2 : DateTime) (acc1 acc2 : List NLobbyAnnouncement)
    (row : Dom) (h : acc1.map erasePublishedAt = acc2.map erasePublishedAt) :
    (processRow n1 acc1 row).map erasePublishedAt
      = (processRow n2 acc2 row).map erasePublishedAt := by
  match hr : Dom.attr? "data-id" row with
  | none => simpa only [processRow, hr] using h
  | some rowId =>
      by_cases hid : rowId = ""
      · simpa only [processRow, hr, if_pos hid] using h
      · simp only [processRow, hr, if_neg hid]
        have hst := foldl_stepCell_congr rowId
          (findAll (Dom.isElemWith "div" "role" "gridcell") row)
          ⟨"", "", n1, false, false, ""⟩ ⟨"", "", n2, false, false, ""⟩
          ⟨rfl, rfl, rfl, rfl, rfl⟩
        by_cases htt : (List.foldl (stepCell rowId)
            (⟨"", "", n1, false, false, ""⟩ : RowState)
            (findAll (Dom.isElemWith "div" "role" "gridcell") row)).title = ""
        · rw [if_pos htt, if_pos (hst.1.symm.trans htt)]
          exact h
        · rw [if_neg htt, if_neg (fun hc => htt (hst.1.trans hc))]
          rw [List.map_append, List.map_append, h, List.map_cons, List.map_nil,
            List.map_cons, List.map_nil, erase_rowAnnouncement rowId _ _ hst]

theorem erase_foldl_processRow (n1 n2 : DateTime) (rows : List Dom)
    (acc1 acc2 : List NLobbyAnnouncement)
    (h : acc1.map erasePublishedAt = acc2.map erasePublishedAt) :
    (rows.foldl (processRow n1) acc1).map erasePublishedAt
      = (rows.foldl (processRow n2) acc2).map erasePublishedAt := by
  induction rows generalizing acc1 acc2 with
  | nil => exact h
  | cons r rest ih => exact ih _ _ (erase_processRow n1 n2 acc1 acc2 r h)

theorem erase_cheerioFromPresentation (n1 n2 : DateTime) (l : List Dom) :
    (cheerioFromPresentation n1 l).map erasePublishedAt
      = (cheerioFromPresentation n2 l).map erasePublishedAt := by
  match l with
  | [] => rfl
  | [x] => rfl
  | _ :: second :: _ => exact erase_foldl_processRow n1 n2 _ [] [] rfl

theorem erase_cheerio (n1 n2 : DateTime) (doc : Dom) :
    (parseAnnouncementsWithCheerioDom n1 doc).map erasePublishedAt
      = (parseAnnouncementsWithCheerioDom n2 doc).map erasePublishedAt :=
  erase_cheerioFromPresentation n1 n2 _

theorem cheerio_length_eq (n1 n2 : DateTime) (doc : Dom) :
    (parseAnnouncementsWithCheerioDom n1 doc).length
      = (parseAnnouncementsWithCheerioDom n2 doc).length := by
  have h := congrArg List.length (erase_cheerio n1 n2 doc)
  simpa using h

def c3Html : String :=
  "<html><script>self.__next_f.push([1,\"5:[[\\\"$\\\",\\\"$L1\\\",null,\x7b\\\"news\\\":[\x7b\\\"id\\\":\\\"7\\\",\\\"title\\\":\\\"A\\\"\x7d]\x7d]]\"])</script></html>"

def c3T1 : DateTime := ⟨2025, 1, 1, 0, 0, 0⟩

def c3T2 : DateTime := ⟨2025, 1, 1, 0, 0, 1⟩

set_option maxRecDepth 10000 in
/-- C3 counterexample: on a fixed page whose streamed fragment carries a
news record with no date field, the extraction read at two different wall
clock instants returns two different record lists — `publishedAt` falls
back to `new Date()` — so the run is not a function of the payload alone. -/
theorem newsFromHtml_clock_dependent :
    parseNewsFromHtml c3Html c3T1 ≠ parseNewsFromHtml c3Html c3T2 ∧
    (parseNewsFromHtml c3Html c3T1).map (fun a => a.publishedAt) = [some c3T1] ∧
    (parseNewsFromHtml c3Html c3T2).map (fun a => a.publishedAt) = [some c3T2] := by
  refine ⟨by decide, by decide, by decide⟩

/-- C3: the extraction is deterministic in the payload up to the wall
clock, and the clock reaches only the `publishedAt` field: two runs of
`parseNewsFromHtml` on one payload at any two instants pick the same
strategy and agree on every produced record except `publishedAt`. -/
theorem parseNewsFromHtml_deterministic_mod_clock (html : String) (n1 n2 : DateTime) :
    (parseNewsFromHtml html n1).map erasePublishedAt
      = (parseNewsFromHtml html n2).map erasePublishedAt := by
  unfold parseNewsFromHtml
  match h1 : strategy1 html with
  | some news => exact erase_transform n1 n2 news
  | none =>
      dsimp only
      by_cases hc : (parseAnnouncementsWithCheerioDom n1 (htmlToDom html)).length > 0
      · rw [if_pos hc, if_pos (cheerio_length_eq n1 n2 (htmlToDom html) ▸ hc)]
        exact erase_cheerio n1 n2 (htmlToDom html)
      · rw [if_neg hc,
          if_neg (fun hc2 => hc ((cheerio_length_eq n1 n2 (htmlToDom html)).symm ▸ hc2))]
        match h2 : strategy2 html with
        | some news => exact erase_transform n1 n2 news
        | none =>
            dsimp only
            match h3 : strategy3 html with
            | some news => exact erase_transform n1 n2 news
            | none =>
                dsimp only
                match h4 : strategy4 html with
                | some news => exact erase_transform n1 n2 news
                | none => rfl

end NLobby
